import Mathlib

/-!
Verification of the fixed-width binary record store and the Unicode-aware
table layout engine of `lib_mgmt.py` (single-file library manager).

Python strings that can be UTF-8 encoded are modelled as `List Char`
(Lean `Char` is exactly a non-surrogate Unicode scalar value, which is
exactly the set of code points `str.encode("utf-8")` accepts).  Byte
strings are modelled as `List Nat` with every element `< 256`.  Python
exceptions raised by the modelled code paths are modelled with
`Except PyErr` / `Option`: an `error`/`none` result means the Python
call raises instead of returning.
-/

/-- Python exception kinds raised by the modelled code. -/
inductive PyErr where
  /-- `ValueError`, raised by the duplicate-id checks in `append`. -/
  | valueError
  /-- `struct.error`, raised by `struct.pack` when an unmasked integer
  argument does not fit its format code (e.g. a `Q` value `≥ 2^64`). -/
  | structError
  /-- `TypeError`, raised by `int(None)` when `BookStore.pack` receives a
  record whose `year` is `None`. -/
  | typeError
deriving DecidableEq, Repr

deriving instance DecidableEq for Except

/-- A Python (encodable) string: a list of Unicode scalar values. -/
abbrev PyStr := List Char

/-- Validity bound carried by every `Char`, in `Nat` form. -/
theorem char_valid_nat (c : Char) :
    c.toNat < 0xD800 ∨ (0xDFFF < c.toNat ∧ c.toNat < 0x110000) := c.valid

/-- UTF-8 encoding of a single Unicode scalar value (CPython's
`str.encode("utf-8")`, per code point). -/
def utf8EncodeChar (c : Char) : List Nat :=
  let n := c.toNat
  if n < 0x80 then [n]
  else if n < 0x800 then [0xC0 + n / 0x40, 0x80 + n % 0x40]
  else if n < 0x10000 then
    [0xE0 + n / 0x1000, 0x80 + n / 0x40 % 0x40, 0x80 + n % 0x40]
  else
    [0xF0 + n / 0x40000, 0x80 + n / 0x1000 % 0x40, 0x80 + n / 0x40 % 0x40,
     0x80 + n % 0x40]

/-- UTF-8 encoding of a string (`s.encode("utf-8")`). -/
def utf8Encode (s : PyStr) : List Nat :=
  (s.map utf8EncodeChar).flatten

/-- A UTF-8 continuation byte: `0x80..0xBF`. -/
def contB (x : Nat) : Bool := decide (0x80 ≤ x ∧ x < 0xC0)

/-- Admissible first continuation byte after lead byte `b`: the CPython
decoder restricts it for leads `0xE0`, `0xED`, `0xF0`, `0xF4` so that
overlong encodings, surrogates and values above `0x10FFFF` are rejected
at this byte. -/
def cont1 (b x : Nat) : Bool :=
  if b = 0xE0 then decide (0xA0 ≤ x ∧ x < 0xC0)
  else if b = 0xED then decide (0x80 ≤ x ∧ x < 0xA0)
  else if b = 0xF0 then decide (0x90 ≤ x ∧ x < 0xC0)
  else if b = 0xF4 then decide (0x80 ≤ x ∧ x < 0x90)
  else contB x

/-- CPython's UTF-8 decoder with `errors="ignore"`: well-formed sequences
are decoded; an ill-formed sequence is dropped (the maximal subpart that
is a prefix of a well-formed sequence is skipped, minimum one byte), and a
truncated well-formed sequence at end of input is dropped silently. -/
def utf8DecodeGo : Nat → List Nat → List Char
  | 0, _ => []
  | _ + 1, [] => []
  | fuel + 1, b :: bs =>
    if b < 0x80 then Char.ofNat b :: utf8DecodeGo fuel bs
    else if b < 0xC2 then utf8DecodeGo fuel bs
    else if b < 0xE0 then
      -- two-byte sequence
      if bs = [] then []
      else if contB (bs.getD 0 0) then
        Char.ofNat (0x40 * (b - 0xC0) + (bs.getD 0 0 - 0x80)) ::
          utf8DecodeGo fuel (bs.drop 1)
      else utf8DecodeGo fuel bs
    else if b < 0xF0 then
      -- three-byte sequence
      if bs = [] then []
      else if ¬ cont1 b (bs.getD 0 0) then utf8DecodeGo fuel bs
      else if bs.drop 1 = [] then []
      else if ¬ contB (bs.getD 1 0) then utf8DecodeGo fuel (bs.drop 1)
      else
        Char.ofNat (0x1000 * (b - 0xE0) + 0x40 * (bs.getD 0 0 - 0x80) +
            (bs.getD 1 0 - 0x80)) ::
          utf8DecodeGo fuel (bs.drop 2)
    else if b < 0xF5 then
      -- four-byte sequence
      if bs = [] then []
      else if ¬ cont1 b (bs.getD 0 0) then utf8DecodeGo fuel bs
      else if bs.drop 1 = [] then []
      else if ¬ contB (bs.getD 1 0) then utf8DecodeGo fuel (bs.drop 1)
      else if bs.drop 2 = [] then []
      else if ¬ contB (bs.getD 2 0) then utf8DecodeGo fuel (bs.drop 2)
      else
        Char.ofNat (0x40000 * (b - 0xF0) + 0x1000 * (bs.getD 0 0 - 0x80) +
            0x40 * (bs.getD 1 0 - 0x80) + (bs.getD 2 0 - 0x80)) ::
          utf8DecodeGo fuel (bs.drop 3)
    else utf8DecodeGo fuel bs

set_option maxHeartbeats 1000000 in
/-- The decoder consumes at least one byte per step, so any fuel of at
least the list length yields the same (fuel-free) result. -/
theorem utf8DecodeGo_congr : ∀ (f1 : Nat) (l : List Nat) (f2 : Nat),
    l.length ≤ f1 → l.length ≤ f2 → utf8DecodeGo f1 l = utf8DecodeGo f2 l := by
  intro f1
  induction f1 with
  | zero =>
    intro l f2 h1 _
    have : l = [] := List.length_eq_zero.mp (Nat.le_zero.mp h1)
    subst this
    cases f2 <;> rfl
  | succ f ih =>
    intro l f2 h1 h2
    match l, f2 with
    | [], 0 => rfl
    | [], g + 1 => rfl
    | b :: bs, g + 1 =>
      have hb : bs.length ≤ f := by simp at h1; omega
      have hg : bs.length ≤ g := by simp at h2; omega
      have hd : ∀ k, (bs.drop k).length ≤ f := by
        intro k; simp [List.length_drop]; omega
      have hd2 : ∀ k, (bs.drop k).length ≤ g := by
        intro k; simp [List.length_drop]; omega
      rw [utf8DecodeGo, utf8DecodeGo, ih bs g hb hg,
        ih (bs.drop 1) g (hd 1) (hd2 1), ih (bs.drop 2) g (hd 2) (hd2 2),
        ih (bs.drop 3) g (hd 3) (hd2 3)]

/-- CPython's UTF-8 decoder with `errors="ignore"`: well-formed sequences
are decoded; an ill-formed sequence is dropped (the maximal subpart that
is a prefix of a well-formed sequence is skipped, minimum one byte), and a
truncated well-formed sequence at end of input is dropped silently. -/
def utf8DecodeIgnore (l : List Nat) : List Char :=
  utf8DecodeGo l.length l

set_option maxHeartbeats 1000000 in
/-- One decoding step of `utf8DecodeIgnore` on a non-empty byte list. -/
theorem utf8DecodeIgnore_cons (b : Nat) (bs : List Nat) :
    utf8DecodeIgnore (b :: bs) =
    (if b < 0x80 then Char.ofNat b :: utf8DecodeIgnore bs
    else if b < 0xC2 then utf8DecodeIgnore bs
    else if b < 0xE0 then
      if bs = [] then []
      else if contB (bs.getD 0 0) then
        Char.ofNat (0x40 * (b - 0xC0) + (bs.getD 0 0 - 0x80)) ::
          utf8DecodeIgnore (bs.drop 1)
      else utf8DecodeIgnore bs
    else if b < 0xF0 then
      if bs = [] then []
      else if ¬ cont1 b (bs.getD 0 0) then utf8DecodeIgnore bs
      else if bs.drop 1 = [] then []
      else if ¬ contB (bs.getD 1 0) then utf8DecodeIgnore (bs.drop 1)
      else
        Char.ofNat (0x1000 * (b - 0xE0) + 0x40 * (bs.getD 0 0 - 0x80) +
            (bs.getD 1 0 - 0x80)) ::
          utf8DecodeIgnore (bs.drop 2)
    else if b < 0xF5 then
      if bs = [] then []
      else if ¬ cont1 b (bs.getD 0 0) then utf8DecodeIgnore bs
      else if bs.drop 1 = [] then []
      else if ¬ contB (bs.getD 1 0) then utf8DecodeIgnore (bs.drop 1)
      else if bs.drop 2 = [] then []
      else if ¬ contB (bs.getD 2 0) then utf8DecodeIgnore (bs.drop 2)
      else
        Char.ofNat (0x40000 * (b - 0xF0) + 0x1000 * (bs.getD 0 0 - 0x80) +
            0x40 * (bs.getD 1 0 - 0x80) + (bs.getD 2 0 - 0x80)) ::
          utf8DecodeIgnore (bs.drop 3)
    else utf8DecodeIgnore bs) := by
  show utf8DecodeGo (bs.length + 1) (b :: bs) = _
  have hc : ∀ k, utf8DecodeGo bs.length (bs.drop k) = utf8DecodeIgnore (bs.drop k) := by
    intro k
    exact utf8DecodeGo_congr bs.length (bs.drop k) (bs.drop k).length
      (by simp [List.length_drop]; try omega) (Nat.le_refl _)
  rw [utf8DecodeGo, show utf8DecodeGo bs.length bs = utf8DecodeIgnore bs from rfl]
  simp only [hc]

/-- `pack_str` (lib_mgmt.py:34-38): UTF-8 encode, truncate to `size` raw
bytes, zero-pad to exactly `size` bytes. -/
def pack_str (s : PyStr) (size : Nat) : List Nat :=
  let b := utf8Encode s
  let b := if b.length > size then b.take size else b
  b ++ List.replicate (size - b.length) 0

/-- `unpack_str` (lib_mgmt.py:40-41): split at the first zero byte and
decode the prefix as UTF-8 with `errors="ignore"`. -/
def unpack_str (b : List Nat) : PyStr :=
  utf8DecodeIgnore (b.takeWhile (fun x => x ≠ 0))


/-- Decoding a well-formed encoded character at the head of a byte stream
yields that character and continues with the rest. -/
theorem utf8DecodeIgnore_encodeChar (c : Char) (rest : List Nat) :
    utf8DecodeIgnore (utf8EncodeChar c ++ rest) = c :: utf8DecodeIgnore rest := by
  have hv := char_valid_nat c
  rcases Nat.lt_or_ge c.toNat 0x80 with h1 | h1
  · simp only [utf8EncodeChar, if_pos h1, List.cons_append, List.nil_append]
    rw [utf8DecodeIgnore_cons]
    rw [if_pos h1, Char.ofNat_toNat]
  rcases Nat.lt_or_ge c.toNat 0x800 with h2 | h2
  · have e1 : ¬ (c.toNat < 0x80) := by omega
    simp only [utf8EncodeChar, if_neg e1, if_pos h2, List.cons_append,
      List.nil_append]
    rw [utf8DecodeIgnore_cons]
    simp only [List.getD_cons_zero, List.getD_cons_succ, List.drop_succ_cons,
      List.drop_zero]
    have hb1 : ¬ (0xC0 + c.toNat / 0x40 < 0x80) := by omega
    have hb2 : ¬ (0xC0 + c.toNat / 0x40 < 0xC2) := by omega
    have hb3 : 0xC0 + c.toNat / 0x40 < 0xE0 := by omega
    have hne : (0x80 + c.toNat % 0x40) :: rest ≠ [] := by simp
    have hc : contB (0x80 + c.toNat % 0x40) = true := by
      simp only [contB, decide_eq_true_eq]; omega
    rw [if_neg hb1, if_neg hb2, if_pos hb3, if_neg hne, if_pos hc]
    have hval : 0x40 * (0xC0 + c.toNat / 0x40 - 0xC0) +
        (0x80 + c.toNat % 0x40 - 0x80) = c.toNat := by omega
    rw [hval, Char.ofNat_toNat]
  rcases Nat.lt_or_ge c.toNat 0x10000 with h3 | h3
  · have e1 : ¬ (c.toNat < 0x80) := by omega
    have e2 : ¬ (c.toNat < 0x800) := by omega
    simp only [utf8EncodeChar, if_neg e1, if_neg e2, if_pos h3,
      List.cons_append, List.nil_append]
    rw [utf8DecodeIgnore_cons]
    simp only [List.getD_cons_zero, List.getD_cons_succ, List.drop_succ_cons,
      List.drop_zero]
    have hb1 : ¬ (0xE0 + c.toNat / 0x1000 < 0x80) := by omega
    have hb2 : ¬ (0xE0 + c.toNat / 0x1000 < 0xC2) := by omega
    have hb3 : ¬ (0xE0 + c.toNat / 0x1000 < 0xE0) := by omega
    have hb4 : 0xE0 + c.toNat / 0x1000 < 0xF0 := by omega
    have hne1 : (0x80 + c.toNat / 0x40 % 0x40) :: (0x80 + c.toNat % 0x40) ::
        rest ≠ [] := by simp
    have hne2 : (0x80 + c.toNat % 0x40) :: rest ≠ [] := by simp
    have hc1 : cont1 (0xE0 + c.toNat / 0x1000) (0x80 + c.toNat / 0x40 % 0x40)
        = true := by
      simp only [cont1, contB]
      split_ifs with hE hD hF h4 <;> simp only [decide_eq_true_eq] <;> omega
    have hc2 : contB (0x80 + c.toNat % 0x40) = true := by
      simp only [contB, decide_eq_true_eq]; omega
    rw [if_neg hb1, if_neg hb2, if_neg hb3, if_pos hb4, if_neg hne1,
      if_neg (not_not_intro hc1), if_neg hne2, if_neg (not_not_intro hc2)]
    have hval : 0x1000 * (0xE0 + c.toNat / 0x1000 - 0xE0) +
        0x40 * (0x80 + c.toNat / 0x40 % 0x40 - 0x80) +
        (0x80 + c.toNat % 0x40 - 0x80) = c.toNat := by omega
    rw [hval, Char.ofNat_toNat]
  · have e1 : ¬ (c.toNat < 0x80) := by omega
    have e2 : ¬ (c.toNat < 0x800) := by omega
    have e3 : ¬ (c.toNat < 0x10000) := by omega
    have hub : c.toNat < 0x110000 := by omega
    simp only [utf8EncodeChar, if_neg e1, if_neg e2, if_neg e3,
      List.cons_append, List.nil_append]
    rw [utf8DecodeIgnore_cons]
    simp only [List.getD_cons_zero, List.getD_cons_succ, List.drop_succ_cons,
      List.drop_zero]
    have hb1 : ¬ (0xF0 + c.toNat / 0x40000 < 0x80) := by omega
    have hb2 : ¬ (0xF0 + c.toNat / 0x40000 < 0xC2) := by omega
    have hb3 : ¬ (0xF0 + c.toNat / 0x40000 < 0xE0) := by omega
    have hb4 : ¬ (0xF0 + c.toNat / 0x40000 < 0xF0) := by omega
    have hb5 : 0xF0 + c.toNat / 0x40000 < 0xF5 := by omega
    have hne1 : (0x80 + c.toNat / 0x1000 % 0x40) ::
        (0x80 + c.toNat / 0x40 % 0x40) :: (0x80 + c.toNat % 0x40) :: rest ≠ []
        := by simp
    have hne2 : (0x80 + c.toNat / 0x40 % 0x40) :: (0x80 + c.toNat % 0x40) ::
        rest ≠ [] := by simp
    have hne3 : (0x80 + c.toNat % 0x40) :: rest ≠ [] := by simp
    have hc1 : cont1 (0xF0 + c.toNat / 0x40000) (0x80 + c.toNat / 0x1000 % 0x40)
        = true := by
      simp only [cont1, contB]
      split_ifs with hE hD hF h4 <;> simp only [decide_eq_true_eq] <;> omega
    have hc2 : contB (0x80 + c.toNat / 0x40 % 0x40) = true := by
      simp only [contB, decide_eq_true_eq]; omega
    have hc3 : contB (0x80 + c.toNat % 0x40) = true := by
      simp only [contB, decide_eq_true_eq]; omega
    rw [if_neg hb1, if_neg hb2, if_neg hb3, if_neg hb4, if_pos hb5,
      if_neg hne1, if_neg (not_not_intro hc1), if_neg hne2,
      if_neg (not_not_intro hc2), if_neg hne3, if_neg (not_not_intro hc3)]
    have hval : 0x40000 * (0xF0 + c.toNat / 0x40000 - 0xF0) +
        0x1000 * (0x80 + c.toNat / 0x1000 % 0x40 - 0x80) +
        0x40 * (0x80 + c.toNat / 0x40 % 0x40 - 0x80) +
        (0x80 + c.toNat % 0x40 - 0x80) = c.toNat := by omega
    rw [hval, Char.ofNat_toNat]

/-- Decoding is a left inverse of encoding on encodable strings. -/
theorem utf8DecodeIgnore_utf8Encode (s : PyStr) :
    utf8DecodeIgnore (utf8Encode s) = s := by
  induction s with
  | nil => rfl
  | cons c t ih =>
    have h : utf8Encode (c :: t) = utf8EncodeChar c ++ utf8Encode t := by
      simp [utf8Encode]
    rw [h, utf8DecodeIgnore_encodeChar, ih]

/-- Every byte of an encoded character is a real byte (`< 256`). -/
theorem utf8EncodeChar_lt_256 (c : Char) : ∀ b ∈ utf8EncodeChar c, b < 256 := by
  have hv := char_valid_nat c
  intro b hb
  simp only [utf8EncodeChar] at hb
  split_ifs at hb with h1 h2 h3
  · simp only [List.mem_singleton] at hb; omega
  · simp only [List.mem_cons, List.not_mem_nil, or_false] at hb
    rcases hb with h | h <;> omega
  · simp only [List.mem_cons, List.not_mem_nil, or_false] at hb
    rcases hb with h | h | h <;> omega
  · simp only [List.mem_cons, List.not_mem_nil, or_false] at hb
    rcases hb with h | h | h | h <;> omega

/-- Encoding a character other than NUL produces no zero byte. -/
theorem utf8EncodeChar_ne_zero (c : Char) (h0 : c.toNat ≠ 0) :
    ∀ b ∈ utf8EncodeChar c, b ≠ 0 := by
  intro b hb
  simp only [utf8EncodeChar] at hb
  split_ifs at hb with h1 h2 h3
  · simp only [List.mem_singleton] at hb; omega
  · simp only [List.mem_cons, List.not_mem_nil, or_false] at hb
    rcases hb with h | h <;> omega
  · simp only [List.mem_cons, List.not_mem_nil, or_false] at hb
    rcases hb with h | h | h <;> omega
  · simp only [List.mem_cons, List.not_mem_nil, or_false] at hb
    rcases hb with h | h | h | h <;> omega

/-- Every byte of an encoded string is `< 256`. -/
theorem utf8Encode_lt_256 (s : PyStr) : ∀ b ∈ utf8Encode s, b < 256 := by
  intro b hb
  simp only [utf8Encode, List.mem_flatten, List.mem_map] at hb
  obtain ⟨l, ⟨c, _, rfl⟩, hbl⟩ := hb
  exact utf8EncodeChar_lt_256 c b hbl

/-- A NUL-free string encodes to NUL-free bytes. -/
theorem utf8Encode_ne_zero (s : PyStr) (h0 : ∀ c ∈ s, c.toNat ≠ 0) :
    ∀ b ∈ utf8Encode s, b ≠ 0 := by
  intro b hb
  simp only [utf8Encode, List.mem_flatten, List.mem_map] at hb
  obtain ⟨l, ⟨c, hc, rfl⟩, hbl⟩ := hb
  exact utf8EncodeChar_ne_zero c (h0 c hc) b hbl

/-- `takeWhile` passes over a block that satisfies the predicate. -/
theorem takeWhile_append_of_forall {α : Type} (p : α → Bool) (l l' : List α)
    (h : ∀ x ∈ l, p x = true) :
    (l ++ l').takeWhile p = l ++ l'.takeWhile p := by
  induction l with
  | nil => simp
  | cons a t ih =>
    simp only [List.cons_append, List.takeWhile_cons]
    rw [h a (List.mem_cons_self a t), ih (fun x hx => h x (List.mem_cons_of_mem a hx))]
    simp

/-- `pack_str` always produces exactly `size` bytes. -/
theorem pack_str_length (s : PyStr) (size : Nat) :
    (pack_str s size).length = size := by
  simp only [pack_str]
  split_ifs with h
  · simp only [List.length_append, List.length_take, List.length_replicate]
    omega
  · simp only [List.length_append, List.length_replicate]
    omega

/-- All bytes of a packed string field are `< 256`. -/
theorem pack_str_lt_256 (s : PyStr) (size : Nat) :
    ∀ b ∈ pack_str s size, b < 256 := by
  intro b hb
  simp only [pack_str, List.mem_append, List.mem_replicate] at hb
  rcases hb with hb | hb
  · split_ifs at hb
    · exact utf8Encode_lt_256 s b (List.mem_of_mem_take hb)
    · exact utf8Encode_lt_256 s b hb
  · omega

/-- String-field round trip: a NUL-free string whose UTF-8 encoding fits in
the field capacity survives `pack_str`/`unpack_str` unchanged. -/
theorem unpack_str_pack_str (s : PyStr) (size : Nat)
    (hlen : (utf8Encode s).length ≤ size) (h0 : ∀ c ∈ s, c.toNat ≠ 0) :
    unpack_str (pack_str s size) = s := by
  simp only [pack_str, unpack_str]
  have hnotgt : ¬ ((utf8Encode s).length > size) := by omega
  rw [if_neg hnotgt]
  rw [takeWhile_append_of_forall _ _ _
    (fun x hx => by simpa using utf8Encode_ne_zero s h0 x hx)]
  have hrep : (List.replicate (size - (utf8Encode s).length) 0).takeWhile
      (fun x => decide (x ≠ 0)) = [] := by
    cases hsz : size - (utf8Encode s).length with
    | zero => simp
    | succ k => simp [List.replicate_succ, List.takeWhile_cons]
  rw [hrep, List.append_nil, utf8DecodeIgnore_utf8Encode]

/-- Claim C4: `pack_str s n` yields exactly `n` bytes: the first
`min |utf8 s| n` raw bytes of the UTF-8 encoding of `s` (so a multi-byte
character may be cut mid-sequence), zero-padded to `n`; `unpack_str` reads
bytes up to the first zero byte and decodes them as UTF-8 with ill-formed
byte sequences dropped (the decoder `utf8DecodeIgnore` is total: it never
raises). -/
theorem C4_string_field_codec (s : PyStr) (n : Nat) (b : List Nat) :
    (pack_str s n).length = n ∧
    pack_str s n = (utf8Encode s).take n ++
      List.replicate (n - min (utf8Encode s).length n) 0 ∧
    unpack_str b = utf8DecodeIgnore (b.takeWhile (fun x => x ≠ 0)) := by
  refine ⟨pack_str_length s n, ?_, rfl⟩
  simp only [pack_str]
  split_ifs with h
  · have h1 : ((utf8Encode s).take n).length = n := by
      simp [List.length_take]; omega
    have h2 : min (utf8Encode s).length n = n := by omega
    rw [h1, h2]
  · have h1 : (utf8Encode s).take n = utf8Encode s :=
      List.take_of_length_le (by omega)
    have h2 : min (utf8Encode s).length n = (utf8Encode s).length := by omega
    rw [h1, h2]

/-- Take an exact-length block off the front of an appended list. -/
theorem take_app_len {α : Type} (a b : List α) (n : Nat) (h : a.length = n) :
    (a ++ b).take n = a := by
  subst h; exact List.take_left a b

/-- Drop an exact-length block off the front of an appended list. -/
theorem drop_app_len {α : Type} (a b : List α) (n : Nat) (h : a.length = n) :
    (a ++ b).drop n = b := by
  subst h; exact List.drop_left a b

/-- Little-endian interpretation of a byte list (as `struct.unpack` does
for its unsigned integer format codes). -/
def leNat : List Nat → Nat
  | [] => 0
  | b :: bs => b + 256 * leNat bs

/-- The two little-endian bytes `struct.pack "<H"` writes for a `u16`. -/
def u16le (x : Nat) : List Nat := [x % 256, x / 256 % 256]

/-- The eight little-endian bytes `struct.pack "<Q"` writes for a `u64`. -/
def u64le (x : Nat) : List Nat :=
  [x % 256, x / 256 % 256, x / 65536 % 256, x / 16777216 % 256,
   x / 4294967296 % 256, x / 1099511627776 % 256,
   x / 281474976710656 % 256, x / 72057594037927936 % 256]

theorem u16le_length (x : Nat) : (u16le x).length = 2 := rfl

theorem u64le_length (x : Nat) : (u64le x).length = 8 := rfl

theorem leNat_u16le (x : Nat) (h : x < 65536) : leNat (u16le x) = x := by
  simp only [u16le, leNat]; omega

theorem leNat_u64le (x : Nat) (h : x < 18446744073709551616) :
    leNat (u64le x) = x := by
  simp only [u64le, leNat]; omega

theorem u16le_lt_256 (x : Nat) : ∀ b ∈ u16le x, b < 256 := by
  intro b hb
  simp only [u16le, List.mem_cons, List.not_mem_nil, or_false] at hb
  rcases hb with h | h <;> omega

theorem u64le_lt_256 (x : Nat) : ∀ b ∈ u64le x, b < 256 := by
  intro b hb
  simp only [u64le, List.mem_cons, List.not_mem_nil, or_false] at hb
  rcases hb with h | h | h | h | h | h | h | h <;> omega

/-- A `Member` record (the dict handled by `MemberStore`); `reserved` is a
constant 0 on disk and is not part of the dict. -/
structure Member where
  member_id : PyStr
  first_name : PyStr
  last_name : PyStr
  email : PyStr
  phone : PyStr
  major : PyStr
  year : Nat
  active : Bool
  created_at : Nat
deriving DecidableEq, Repr, Inhabited

/-- A `Book` record.  `year` is `Option Nat` because `BookStore.unpack`
produces `None` for a stored year of 0, and such a dict can flow back into
`BookStore.pack`. -/
structure Book where
  book_id : PyStr
  title : PyStr
  author : PyStr
  category : PyStr
  year : Option Nat
  isbn : PyStr
  total_copies : Nat
  available_copies : Nat
  created_at : Nat
deriving DecidableEq, Repr, Inhabited

/-- A `Loan` record. -/
structure Loan where
  loan_id : PyStr
  member_id : PyStr
  book_id : PyStr
  loan_date : Nat
  due_date : Nat
  return_date : Nat
  status : Nat
deriving DecidableEq, Repr, Inhabited

/-! ### MemberStore codec (lib_mgmt.py:156-198)

Layout `<12s32s32s64s16s16sBBHQ`, 184 bytes: member_id, first, last,
email, phone, major, year(u8, masked), active(u8 from bool), reserved(u16
constant 0), created_at(u64, not masked). -/

namespace MemberStore

/-- Payload bytes written by `struct.pack` for a member dict (every
argument already in range at this point). -/
def packBytes (d : Member) : List Nat :=
  pack_str d.member_id 12 ++ pack_str d.first_name 32 ++
  pack_str d.last_name 32 ++ pack_str d.email 64 ++
  pack_str d.phone 16 ++ pack_str d.major 16 ++
  [d.year % 256] ++ [if d.active then 1 else 0] ++ u16le 0 ++
  u64le d.created_at

/-- `MemberStore.pack`: `year` is masked with `& 0xFF`, `active` becomes
0/1, but `created_at` is passed to the `Q` format code unmasked, so
`struct.pack` raises `struct.error` when it does not fit in a u64. -/
def pack (d : Member) : Except PyErr (List Nat) :=
  if d.created_at < 18446744073709551616 then .ok (packBytes d)
  else .error .structError

/-- Field extraction of `MemberStore.unpack` on a 184-byte buffer:
`struct.unpack` splits consecutive fields, string fields go through
`unpack_str`, `year`/`created_at` through `int`, `active` through `bool`,
and the reserved u16 is dropped. -/
def unpackCore (b : List Nat) : Member :=
  let r0 := b
  let r1 := r0.drop 12
  let r2 := r1.drop 32
  let r3 := r2.drop 32
  let r4 := r3.drop 64
  let r5 := r4.drop 16
  let r6 := r5.drop 16
  { member_id := unpack_str (r0.take 12)
    first_name := unpack_str (r1.take 32)
    last_name := unpack_str (r2.take 32)
    email := unpack_str (r3.take 64)
    phone := unpack_str (r4.take 16)
    major := unpack_str (r5.take 16)
    year := r6.getD 0 0
    active := r6.getD 1 0 != 0
    created_at := leNat ((r6.drop 4).take 8) }

/-- `MemberStore.unpack`: `struct.unpack` raises unless the buffer is
exactly `MEM_SIZE = 184` bytes. -/
def unpack (b : List Nat) : Option Member :=
  if b.length = 184 then some (unpackCore b) else none

theorem mem_packBytes_length (d : Member) : (packBytes d).length = 184 := by
  simp [packBytes, List.length_append, pack_str_length, u64le_length, u16le]

theorem mem_unpackCore_packBytes (d : Member)
    (h64 : d.created_at < 18446744073709551616) :
    unpackCore (packBytes d) =
      { member_id := unpack_str (pack_str d.member_id 12)
        first_name := unpack_str (pack_str d.first_name 32)
        last_name := unpack_str (pack_str d.last_name 32)
        email := unpack_str (pack_str d.email 64)
        phone := unpack_str (pack_str d.phone 16)
        major := unpack_str (pack_str d.major 16)
        year := d.year % 256
        active := d.active
        created_at := d.created_at } := by
  simp only [unpackCore, packBytes, List.append_assoc]
  rw [take_app_len _ _ _ (pack_str_length _ _),
    drop_app_len _ _ _ (pack_str_length _ _),
    take_app_len _ _ _ (pack_str_length _ _),
    drop_app_len _ _ _ (pack_str_length _ _),
    take_app_len _ _ _ (pack_str_length _ _),
    drop_app_len _ _ _ (pack_str_length _ _),
    take_app_len _ _ _ (pack_str_length _ _),
    drop_app_len _ _ _ (pack_str_length _ _),
    take_app_len _ _ _ (pack_str_length _ _),
    drop_app_len _ _ _ (pack_str_length _ _),
    take_app_len _ _ _ (pack_str_length _ _),
    drop_app_len _ _ _ (pack_str_length _ _)]
  simp only [List.singleton_append, List.cons_append, List.nil_append, u16le,
    List.getD_cons_zero, List.getD_cons_succ, List.drop_succ_cons,
    List.drop_zero]
  rw [List.take_of_length_le (by rw [u64le_length]), leNat_u64le _ h64]
  have ha : ((if d.active = true then (1 : Nat) else 0) != 0) = d.active := by
    cases d.active <;> rfl
  rw [ha]

end MemberStore

/-! ### BookStore codec (lib_mgmt.py:236-270)

Layout `<12s64s32s16sH20sHHQ`, 158 bytes: book_id, title, author,
category, year(u16, masked), isbn, total_copies(u16, masked),
available_copies(u16, masked), created_at(u64, not masked). -/

namespace BookStore

/-- Payload bytes written by `struct.pack` for a book dict whose `year`
value is the integer `y`. -/
def packBytes (d : Book) (y : Nat) : List Nat :=
  pack_str d.book_id 12 ++ pack_str d.title 64 ++
  pack_str d.author 32 ++ pack_str d.category 16 ++
  u16le (y % 65536) ++ pack_str d.isbn 20 ++
  u16le (d.total_copies % 65536) ++ u16le (d.available_copies % 65536) ++
  u64le d.created_at

/-- `BookStore.pack`: `int(d.get("year", 0))` raises `TypeError` when the
dict holds `None` (which `BookStore.unpack` produces for a stored year of
0); the u16 fields are masked with `& 0xFFFF`; `created_at` is passed to
`Q` unmasked and raises `struct.error` when out of u64 range. -/
def pack (d : Book) : Except PyErr (List Nat) :=
  match d.year with
  | none => .error .typeError
  | some y =>
    if d.created_at < 18446744073709551616 then .ok (packBytes d y)
    else .error .structError

/-- Field extraction of `BookStore.unpack` on a 158-byte buffer; a stored
year of 0 becomes `none` (`int(year) if year else None`). -/
def unpackCore (b : List Nat) : Book :=
  let r0 := b
  let r1 := r0.drop 12
  let r2 := r1.drop 64
  let r3 := r2.drop 32
  let r4 := r3.drop 16
  let r5 := r4.drop 2
  let r6 := r5.drop 20
  let r7 := r6.drop 2
  let r8 := r7.drop 2
  let y := leNat (r4.take 2)
  { book_id := unpack_str (r0.take 12)
    title := unpack_str (r1.take 64)
    author := unpack_str (r2.take 32)
    category := unpack_str (r3.take 16)
    year := if y = 0 then none else some y
    isbn := unpack_str (r5.take 20)
    total_copies := leNat (r6.take 2)
    available_copies := leNat (r7.take 2)
    created_at := leNat (r8.take 8) }

/-- `BookStore.unpack`: `struct.unpack` raises unless the buffer is
exactly `BOOK_SIZE = 158` bytes. -/
def unpack (b : List Nat) : Option Book :=
  if b.length = 158 then some (unpackCore b) else none

theorem book_packBytes_length (d : Book) (y : Nat) :
    (packBytes d y).length = 158 := by
  simp [packBytes, List.length_append, pack_str_length, u64le_length, u16le]

theorem book_unpackCore_packBytes (d : Book) (y : Nat)
    (h64 : d.created_at < 18446744073709551616) :
    unpackCore (packBytes d y) =
      { book_id := unpack_str (pack_str d.book_id 12)
        title := unpack_str (pack_str d.title 64)
        author := unpack_str (pack_str d.author 32)
        category := unpack_str (pack_str d.category 16)
        year := if y % 65536 = 0 then none else some (y % 65536)
        isbn := unpack_str (pack_str d.isbn 20)
        total_copies := d.total_copies % 65536
        available_copies := d.available_copies % 65536
        created_at := d.created_at } := by
  simp only [unpackCore, packBytes, List.append_assoc]
  rw [take_app_len _ _ _ (pack_str_length _ _),
    drop_app_len _ _ _ (pack_str_length _ _),
    take_app_len _ _ _ (pack_str_length _ _),
    drop_app_len _ _ _ (pack_str_length _ _),
    take_app_len _ _ _ (pack_str_length _ _),
    drop_app_len _ _ _ (pack_str_length _ _),
    take_app_len _ _ _ (pack_str_length _ _),
    drop_app_len _ _ _ (pack_str_length _ _),
    take_app_len _ _ _ (u16le_length _),
    drop_app_len _ _ _ (u16le_length _),
    take_app_len _ _ _ (pack_str_length _ _),
    drop_app_len _ _ _ (pack_str_length _ _),
    take_app_len _ _ _ (u16le_length _),
    drop_app_len _ _ _ (u16le_length _),
    take_app_len _ _ _ (u16le_length _),
    drop_app_len _ _ _ (u16le_length _)]
  rw [List.take_of_length_le (by rw [u64le_length]), leNat_u64le _ h64,
    leNat_u16le _ (Nat.mod_lt _ (by omega)),
    leNat_u16le _ (Nat.mod_lt _ (by omega)),
    leNat_u16le _ (Nat.mod_lt _ (by omega))]

end BookStore

/-! ### LoanStore codec (lib_mgmt.py:314-344)

Layout `<12s12s12sQQQB3x`, 64 bytes: loan_id, member_id, book_id,
loan_date(u64), due_date(u64), return_date(u64) — all three unmasked —
status(u8, masked), 3 zero pad bytes. -/

namespace LoanStore

/-- Payload bytes written by `struct.pack` for a loan dict (the `3x`
format code emits three zero bytes). -/
def packBytes (d : Loan) : List Nat :=
  pack_str d.loan_id 12 ++ pack_str d.member_id 12 ++
  pack_str d.book_id 12 ++ u64le d.loan_date ++ u64le d.due_date ++
  u64le d.return_date ++ [d.status % 256] ++ [0, 0, 0]

/-- `LoanStore.pack`: `status` is masked with `& 0xFF`; the three date
fields are passed to `Q` unmasked and raise `struct.error` when out of
u64 range. -/
def pack (d : Loan) : Except PyErr (List Nat) :=
  if d.loan_date < 18446744073709551616 ∧
     d.due_date < 18446744073709551616 ∧
     d.return_date < 18446744073709551616 then .ok (packBytes d)
  else .error .structError

/-- Field extraction of `LoanStore.unpack` on a 64-byte buffer. -/
def unpackCore (b : List Nat) : Loan :=
  let r0 := b
  let r1 := r0.drop 12
  let r2 := r1.drop 12
  let r3 := r2.drop 12
  let r4 := r3.drop 8
  let r5 := r4.drop 8
  let r6 := r5.drop 8
  { loan_id := unpack_str (r0.take 12)
    member_id := unpack_str (r1.take 12)
    book_id := unpack_str (r2.take 12)
    loan_date := leNat (r3.take 8)
    due_date := leNat (r4.take 8)
    return_date := leNat (r5.take 8)
    status := r6.getD 0 0 }

/-- `LoanStore.unpack`: `struct.unpack` raises unless the buffer is
exactly `LOAN_SIZE = 64` bytes. -/
def unpack (b : List Nat) : Option Loan :=
  if b.length = 64 then some (unpackCore b) else none

theorem loan_packBytes_length (d : Loan) : (packBytes d).length = 64 := by
  simp [packBytes, List.length_append, pack_str_length, u64le_length]

theorem loan_unpackCore_packBytes (d : Loan)
    (hl : d.loan_date < 18446744073709551616)
    (hd : d.due_date < 18446744073709551616)
    (hr : d.return_date < 18446744073709551616) :
    unpackCore (packBytes d) =
      { loan_id := unpack_str (pack_str d.loan_id 12)
        member_id := unpack_str (pack_str d.member_id 12)
        book_id := unpack_str (pack_str d.book_id 12)
        loan_date := d.loan_date
        due_date := d.due_date
        return_date := d.return_date
        status := d.status % 256 } := by
  simp only [unpackCore, packBytes, List.append_assoc]
  rw [take_app_len _ _ _ (pack_str_length _ _),
    drop_app_len _ _ _ (pack_str_length _ _),
    take_app_len _ _ _ (pack_str_length _ _),
    drop_app_len _ _ _ (pack_str_length _ _),
    take_app_len _ _ _ (pack_str_length _ _),
    drop_app_len _ _ _ (pack_str_length _ _),
    take_app_len _ _ _ (u64le_length _),
    drop_app_len _ _ _ (u64le_length _),
    take_app_len _ _ _ (u64le_length _),
    drop_app_len _ _ _ (u64le_length _),
    take_app_len _ _ _ (u64le_length _),
    drop_app_len _ _ _ (u64le_length _),
    leNat_u64le _ hl, leNat_u64le _ hd, leNat_u64le _ hr]
  simp only [List.singleton_append, List.cons_append, List.getD_cons_zero]

end LoanStore

/-- A string field value that survives the codec: its UTF-8 encoding fits
the field capacity and it contains no NUL character. -/
def strOk (s : PyStr) (cap : Nat) : Prop :=
  (utf8Encode s).length ≤ cap ∧ ∀ c ∈ s, c.toNat ≠ 0

instance (s : PyStr) (cap : Nat) : Decidable (strOk s cap) := by
  unfold strOk; infer_instance

/-- Member whose fields fit their capacities/bit widths (string fields
additionally NUL-free). -/
def memberFits (m : Member) : Prop :=
  strOk m.member_id 12 ∧ strOk m.first_name 32 ∧ strOk m.last_name 32 ∧
  strOk m.email 64 ∧ strOk m.phone 16 ∧ strOk m.major 16 ∧
  m.year < 256 ∧ m.created_at < 18446744073709551616

/-- Book whose fields fit their capacities/bit widths (string fields
additionally NUL-free). -/
def bookFits (b : Book) : Prop :=
  strOk b.book_id 12 ∧ strOk b.title 64 ∧ strOk b.author 32 ∧
  strOk b.category 16 ∧ strOk b.isbn 20 ∧ b.total_copies < 65536 ∧
  b.available_copies < 65536 ∧ b.created_at < 18446744073709551616

/-- Loan whose fields fit their capacities/bit widths (string fields
additionally NUL-free). -/
def loanFits (l : Loan) : Prop :=
  strOk l.loan_id 12 ∧ strOk l.member_id 12 ∧ strOk l.book_id 12 ∧
  l.loan_date < 18446744073709551616 ∧ l.due_date < 18446744073709551616 ∧
  l.return_date < 18446744073709551616 ∧ l.status < 256

instance (m : Member) : Decidable (memberFits m) := by
  unfold memberFits; infer_instance

instance (b : Book) : Decidable (bookFits b) := by
  unfold bookFits; infer_instance

instance (l : Loan) : Decidable (loanFits l) := by
  unfold loanFits; infer_instance

/-- Claim C1 (amended): the record round trip `unpack (pack r) = r` holds
for Member, Book and Loan records whose string fields fit their byte
capacities and whose numeric fields fit their bit widths, provided
additionally that no string field contains the NUL character U+0000
(decoding stops at the first zero byte) and that a Book's `year` is a
nonzero integer (a stored year of 0 decodes to `None`, not `0`). -/
theorem C1_record_roundtrip :
    (∀ m : Member, memberFits m →
      ∃ bs, MemberStore.pack m = .ok bs ∧ MemberStore.unpack bs = some m) ∧
    (∀ (b : Book) (y : Nat), b.year = some y → 0 < y → y < 65536 →
      bookFits b →
      ∃ bs, BookStore.pack b = .ok bs ∧ BookStore.unpack bs = some b) ∧
    (∀ l : Loan, loanFits l →
      ∃ bs, LoanStore.pack l = .ok bs ∧ LoanStore.unpack bs = some l) := by
  refine ⟨?_, ?_, ?_⟩
  · rintro m ⟨h1, h2, h3, h4, h5, h6, hy, hc⟩
    refine ⟨MemberStore.packBytes m, by simp [MemberStore.pack, hc], ?_⟩
    rw [MemberStore.unpack, if_pos (MemberStore.mem_packBytes_length m),
      MemberStore.mem_unpackCore_packBytes m hc,
      unpack_str_pack_str _ _ h1.1 h1.2, unpack_str_pack_str _ _ h2.1 h2.2,
      unpack_str_pack_str _ _ h3.1 h3.2, unpack_str_pack_str _ _ h4.1 h4.2,
      unpack_str_pack_str _ _ h5.1 h5.2, unpack_str_pack_str _ _ h6.1 h6.2,
      Nat.mod_eq_of_lt hy]
  · rintro b y hy hy0 hy16 ⟨h1, h2, h3, h4, h5, ht, ha, hc⟩
    refine ⟨BookStore.packBytes b y, by simp [BookStore.pack, hy, hc], ?_⟩
    rw [BookStore.unpack, if_pos (BookStore.book_packBytes_length b y),
      BookStore.book_unpackCore_packBytes b y hc,
      unpack_str_pack_str _ _ h1.1 h1.2, unpack_str_pack_str _ _ h2.1 h2.2,
      unpack_str_pack_str _ _ h3.1 h3.2, unpack_str_pack_str _ _ h4.1 h4.2,
      unpack_str_pack_str _ _ h5.1 h5.2,
      Nat.mod_eq_of_lt hy16, Nat.mod_eq_of_lt ht, Nat.mod_eq_of_lt ha,
      if_neg (by omega)]
    rw [← hy]
  · rintro l ⟨h1, h2, h3, hl, hd, hr, hs⟩
    refine ⟨LoanStore.packBytes l, by simp [LoanStore.pack, hl, hd, hr], ?_⟩
    rw [LoanStore.unpack, if_pos (LoanStore.loan_packBytes_length l),
      LoanStore.loan_unpackCore_packBytes l hl hd hr,
      unpack_str_pack_str _ _ h1.1 h1.2, unpack_str_pack_str _ _ h2.1 h2.2,
      unpack_str_pack_str _ _ h3.1 h3.2, Nat.mod_eq_of_lt hs]

/-- A member whose `member_id` embeds a NUL character: it fits the
capacity (3 bytes ≤ 12) but does not survive the round trip. -/
def memberWithNul : Member :=
  { member_id := ['a', '\x00', 'b'], first_name := "Ann".toList,
    last_name := "Lee".toList, email := "a@b.c".toList,
    phone := "123".toList, major := [], year := 1, active := true,
    created_at := 1700000000 }

/-- A book whose `year` is the (in-range) integer 0: the stored year 0
decodes to `None`, not `0`. -/
def bookYearZero : Book :=
  { book_id := "B1".toList, title := "T".toList, author := "A".toList,
    category := [], year := some 0, isbn := [], total_copies := 1,
    available_copies := 1, created_at := 5 }

set_option maxRecDepth 40000 in
/-- Claim C1 counterexample: two records whose string fields fit their
capacities and whose numeric fields fit their bit widths, yet
`unpack (pack r) ≠ r`: a member id with an embedded NUL byte, and a book
with year 0 (which decodes to `None`). -/
theorem C1_record_roundtrip_cex :
    ((utf8Encode memberWithNul.member_id).length ≤ 12 ∧
      memberWithNul.year < 256 ∧
      memberWithNul.created_at < 18446744073709551616 ∧
      (MemberStore.pack memberWithNul).toOption.bind MemberStore.unpack ≠
        some memberWithNul) ∧
    (bookYearZero.year = some 0 ∧
      (BookStore.pack bookYearZero).toOption.bind BookStore.unpack ≠
        some bookYearZero) := by
  decide

/-- Concrete records for which the amended round trip holds. -/
def memberSample : Member :=
  { member_id := "M001".toList, first_name := "Ann".toList,
    last_name := "Lee".toList, email := "ann@example.com".toList,
    phone := "0812345678".toList, major := "CS".toList, year := 2,
    active := true, created_at := 1700000000 }

def bookSample : Book :=
  { book_id := "B001".toList, title := "Dune".toList,
    author := "Herbert".toList, category := "SciFi".toList,
    year := some 1965, isbn := "9780441172719".toList, total_copies := 3,
    available_copies := 2, created_at := 1700000001 }

def loanSample : Loan :=
  { loan_id := "LN17".toList, member_id := "M001".toList,
    book_id := "B001".toList, loan_date := 1700000002,
    due_date := 1701209602, return_date := 0, status := 0 }

set_option maxRecDepth 40000 in
/-- Witness for C1: the amended round trip at three concrete records. -/
theorem C1_record_roundtrip_witness :
    (∃ bs, MemberStore.pack memberSample = .ok bs ∧
      MemberStore.unpack bs = some memberSample) ∧
    (∃ bs, BookStore.pack bookSample = .ok bs ∧
      BookStore.unpack bs = some bookSample) ∧
    (∃ bs, LoanStore.pack loanSample = .ok bs ∧
      LoanStore.unpack bs = some loanSample) :=
  ⟨C1_record_roundtrip.1 memberSample (by decide),
   C1_record_roundtrip.2.1 bookSample 1965 rfl (by decide) (by decide)
     (by decide),
   C1_record_roundtrip.2.2 loanSample (by decide)⟩

/-- Claim C2 (amended): the u8 and u16 fields (`year`, `status`,
`total_copies`, `available_copies`) are masked to their bit width before
writing, so out-of-range values wrap modulo `2^width` and never make
encode fail; the u64 fields (`created_at` and the three loan dates) are
passed to `struct.pack` unmasked, so a u64 value `≥ 2^64` makes encode
raise `struct.error` instead of wrapping. -/
theorem C2_field_masking :
    (∀ (m : Member) (y : Nat),
      MemberStore.pack { m with year := y } =
        MemberStore.pack { m with year := y % 256 }) ∧
    (∀ (b : Book) (y : Nat),
      BookStore.pack { b with year := some y } =
        BookStore.pack { b with year := some (y % 65536) }) ∧
    (∀ (b : Book) (t : Nat),
      BookStore.pack { b with total_copies := t } =
        BookStore.pack { b with total_copies := t % 65536 }) ∧
    (∀ (b : Book) (a : Nat),
      BookStore.pack { b with available_copies := a } =
        BookStore.pack { b with available_copies := a % 65536 }) ∧
    (∀ (l : Loan) (s : Nat),
      LoanStore.pack { l with status := s } =
        LoanStore.pack { l with status := s % 256 }) ∧
    (∀ m : Member, m.created_at < 18446744073709551616 →
      MemberStore.pack m = .ok (MemberStore.packBytes m)) ∧
    (∀ (l : Loan), l.loan_date < 18446744073709551616 →
      l.due_date < 18446744073709551616 →
      l.return_date < 18446744073709551616 →
      LoanStore.pack l = .ok (LoanStore.packBytes l)) ∧
    (∀ m : Member, 18446744073709551616 ≤ m.created_at →
      MemberStore.pack m = .error .structError) ∧
    (∀ l : Loan, 18446744073709551616 ≤ l.loan_date →
      LoanStore.pack l = .error .structError) ∧
    (∀ (b : Book) (y : Nat), b.year = some y →
      18446744073709551616 ≤ b.created_at →
      BookStore.pack b = .error .structError) := by
  refine ⟨?_, ?_, ?_, ?_, ?_, ?_, ?_, ?_, ?_, ?_⟩
  · intro m y
    simp [MemberStore.pack, MemberStore.packBytes,
      Nat.mod_mod_of_dvd y (dvd_refl 256)]
  · intro b y
    simp [BookStore.pack, BookStore.packBytes,
      Nat.mod_mod_of_dvd y (dvd_refl 65536)]
  · intro b t
    simp [BookStore.pack, BookStore.packBytes,
      Nat.mod_mod_of_dvd t (dvd_refl 65536)]
  · intro b a
    simp [BookStore.pack, BookStore.packBytes,
      Nat.mod_mod_of_dvd a (dvd_refl 65536)]
  · intro l s
    simp [LoanStore.pack, LoanStore.packBytes,
      Nat.mod_mod_of_dvd s (dvd_refl 256)]
  · intro m h; simp [MemberStore.pack, h]
  · intro l h1 h2 h3; simp [LoanStore.pack, h1, h2, h3]
  · intro m h; simp [MemberStore.pack]; omega
  · intro l h; simp [LoanStore.pack]; omega
  · intro b y hy h; simp [BookStore.pack, hy]; omega

/-- A member whose `created_at` does not fit in a u64. -/
def memberBigCreated : Member :=
  { member_id := "M9".toList, first_name := [], last_name := [],
    email := [], phone := [], major := [], year := 300, active := true,
    created_at := 18446744073709551616 }

/-- Claim C2 counterexample: an out-of-range u64 value does not wrap; it
makes encode raise `struct.error` (while the out-of-range u8 `year` 300 of
the same record would have wrapped). -/
theorem C2_field_masking_cex :
    MemberStore.pack memberBigCreated = .error .structError := by decide

/-- Witness for C2: masking and failure behaviour at concrete records. -/
theorem C2_field_masking_witness :
    (MemberStore.pack { memberSample with year := 300 } =
      MemberStore.pack { memberSample with year := 44 }) ∧
    (LoanStore.pack { loanSample with status := 70000 } =
      LoanStore.pack { loanSample with status := 112 }) ∧
    (MemberStore.pack memberSample = .ok (MemberStore.packBytes memberSample)) ∧
    (MemberStore.pack { memberSample with
        created_at := 18446744073709551616 } = .error .structError) :=
  ⟨by have h := C2_field_masking.1 memberSample 300; simpa using h,
   by have h := C2_field_masking.2.2.2.2.1 loanSample 70000; simpa using h,
   C2_field_masking.2.2.2.2.2.1 memberSample (by decide),
   C2_field_masking.2.2.2.2.2.2.2.1 _ (by decide)⟩

/-- Claim C10: a 158-byte book record whose stored year field (the two
little-endian bytes at offsets 124-125) is zero decodes to a record whose
`year` is `None` rather than `0`; and a record with `year = None` cannot
be re-encoded: `BookStore.pack` raises `TypeError` on it (this hits every
path that re-packs decoded records, e.g. `delete_hard`). -/
theorem C10_year_zero_decodes_none :
    (∀ b : List Nat, leNat ((b.drop 124).take 2) = 0 →
      (BookStore.unpackCore b).year = none) ∧
    (∀ b : List Nat, b.length = 158 →
      BookStore.unpack b = some (BookStore.unpackCore b)) ∧
    (∀ r : Book, r.year = none → BookStore.pack r = .error .typeError) := by
  refine ⟨?_, ?_, ?_⟩
  · intro b h
    simp only [BookStore.unpackCore, List.drop_drop]
    rw [if_pos h]
  · intro b h
    rw [BookStore.unpack, if_pos h]
  · intro r h
    simp [BookStore.pack, h]

set_option maxRecDepth 40000 in
/-- Witness for C10: the all-zero 158-byte buffer decodes with
`year = None`, and re-encoding that record raises `TypeError`. -/
theorem C10_year_zero_decodes_none_witness :
    ((BookStore.unpackCore (List.replicate 158 0)).year = none) ∧
    (BookStore.unpack (List.replicate 158 0) =
      some (BookStore.unpackCore (List.replicate 158 0))) ∧
    (BookStore.pack (BookStore.unpackCore (List.replicate 158 0)) =
      .error .typeError) :=
  ⟨C10_year_zero_decodes_none.1 _ (by decide),
   C10_year_zero_decodes_none.2.1 _ (by decide),
   C10_year_zero_decodes_none.2.2 _ (C10_year_zero_decodes_none.1 _ (by decide))⟩

/-! ### Flat-file store operations

A store file is its byte content (`List Nat`, each element `< 256`).
`iter_all` reads fixed-size chunks until end of file, discarding a short
trailing chunk; `get_by_id` is a linear scan returning the first record
with the given key together with its 0-based index; `append` writes at
end of file (after the duplicate-id check for Member/Book); `update_at`
overwrites in place at `index * SIZE` (seeking past end of file
zero-fills the gap); `BookStore.delete_hard` rewrites the whole file from
the decoded records that survive the filter. -/

/-- Fuel-driven chunker: read `n`-byte chunks while at least `n` bytes
remain (`f.read(SIZE)` loop). -/
def chunksGo {α : Type} : Nat → Nat → List α → List (List α)
  | 0, _, _ => []
  | _ + 1, 0, _ => []
  | fuel + 1, n + 1, l =>
    if n + 1 ≤ l.length then
      l.take (n + 1) :: chunksGo fuel (n + 1) (l.drop (n + 1))
    else []

/-- Split a list into its maximal sequence of full `n`-element chunks,
discarding the shorter remainder. -/
def chunks {α : Type} (n : Nat) (l : List α) : List (List α) :=
  chunksGo l.length n l

/-- Each chunker step consumes at least one element, so any fuel of at
least the list length yields the same result. -/
theorem chunksGo_congr {α : Type} : ∀ (f1 : Nat) (n : Nat) (l : List α)
    (f2 : Nat), l.length ≤ f1 → l.length ≤ f2 →
    chunksGo f1 n l = chunksGo f2 n l := by
  intro f1
  induction f1 with
  | zero =>
    intro n l f2 h1 _
    have : l = [] := List.length_eq_zero.mp (Nat.le_zero.mp h1)
    subst this
    cases f2 with
    | zero => rfl
    | succ g => cases n with
      | zero => rfl
      | succ m => simp [chunksGo]
  | succ f ih =>
    intro n l f2 h1 h2
    match n, f2 with
    | 0, 0 => rfl
    | 0, g + 1 => rfl
    | m + 1, 0 =>
      have : l = [] := List.length_eq_zero.mp (Nat.le_zero.mp h2)
      subst this
      simp [chunksGo]
    | m + 1, g + 1 =>
      rw [chunksGo, chunksGo]
      by_cases hc : m + 1 ≤ l.length
      · rw [if_pos hc, if_pos hc,
          ih (m + 1) (l.drop (m + 1)) g (by simp [List.length_drop]; omega)
            (by simp [List.length_drop]; omega)]
      · rw [if_neg hc, if_neg hc]

/-- Chunking an empty list yields no chunks. -/
theorem chunks_nil {α : Type} (n : Nat) : chunks n ([] : List α) = [] := by
  cases n <;> rfl

/-- Chunking peels a leading block of exactly `n` elements. -/
theorem chunks_cons_block {α : Type} (n : Nat) (hn : 0 < n)
    (bs X : List α) (hbs : bs.length = n) :
    chunks n (bs ++ X) = bs :: chunks n X := by
  obtain ⟨m, rfl⟩ := Nat.exists_eq_succ_of_ne_zero (Nat.pos_iff_ne_zero.mp hn)
  show chunksGo (bs ++ X).length (m + 1) (bs ++ X) = _
  have hlen : (bs ++ X).length = (m + X.length) + 1 := by
    simp [List.length_append, hbs]; omega
  rw [hlen, chunksGo,
    if_pos (by simp [List.length_append, hbs]),
    take_app_len _ _ _ hbs, drop_app_len _ _ _ hbs,
    chunksGo_congr (m + X.length) (m + 1) X X.length (by omega)
      (Nat.le_refl _)]
  rfl

/-- A list shorter than `n` yields no chunks. -/
theorem chunks_short {α : Type} (n : Nat) (l : List α)
    (h : l.length < n) : chunks n l = [] := by
  cases n with
  | zero => exact absurd h (by omega)
  | succ m =>
    show chunksGo l.length (m + 1) l = []
    cases hf : l.length with
    | zero => rfl
    | succ k => rw [chunksGo, if_neg (by omega)]

/-- Number of chunks: `length / n`. -/
theorem chunks_length {α : Type} (n : Nat) (hn : 0 < n) (l : List α) :
    (chunks n l).length = l.length / n := by
  obtain ⟨m, rfl⟩ := Nat.exists_eq_succ_of_ne_zero (Nat.pos_iff_ne_zero.mp hn)
  suffices h : ∀ (fuel : Nat) (l : List α), l.length ≤ fuel →
      (chunksGo fuel (m + 1) l).length = l.length / (m + 1) by
    exact h l.length l (Nat.le_refl _)
  intro fuel
  induction fuel with
  | zero =>
    intro l h1
    have : l = [] := List.length_eq_zero.mp (Nat.le_zero.mp h1)
    subst this; simp [chunksGo]
  | succ f ih =>
    intro l h1
    rw [chunksGo]
    by_cases hc : m + 1 ≤ l.length
    · rw [if_pos hc]
      have hr := ih (l.drop (m + 1)) (by simp [List.length_drop]; omega)
      simp only [List.length_cons, hr, List.length_drop]
      rw [Nat.div_eq_sub_div (by omega) hc]
    · rw [if_neg hc]
      rw [Nat.div_eq_of_lt (by omega)]
      rfl

/-- In-range index into the chunking: the file holds `i + 1` full
records. -/
theorem chunks_index_bound {α : Type} (n : Nat) (hn : 0 < n) (l : List α)
    (i : Nat) (h : i < (chunks n l).length) : (i + 1) * n ≤ l.length := by
  rw [chunks_length n hn l] at h
  exact (Nat.le_div_iff_mul_le hn).mp (by omega)

/-- Splicing a fresh `n`-byte record at offset `i * n` replaces the
`i`-th chunk and leaves every other chunk unchanged. -/
theorem chunks_splice {α : Type} (n : Nat) (hn : 0 < n) :
    ∀ (i : Nat) (file bs : List α), bs.length = n →
    (i + 1) * n ≤ file.length →
    chunks n (file.take (i * n) ++ bs ++ file.drop (i * n + n)) =
      (chunks n file).set i bs := by
  intro i
  induction i with
  | zero =>
    intro file bs hbs hlen
    simp only [Nat.zero_mul, List.take_zero, List.nil_append, Nat.zero_add]
    rw [chunks_cons_block n hn bs (file.drop n) hbs]
    have hfile : chunks n file = file.take n :: chunks n (file.drop n) := by
      conv_lhs => rw [← List.take_append_drop n file]
      rw [chunks_cons_block n hn _ _ (by simp [List.length_take]; omega)]
    rw [hfile]
    rfl
  | succ j ih =>
    intro file bs hbs hlen
    have hx : (j + 1) * n + n ≤ file.length := by
      rw [← Nat.succ_mul]; exact hlen
    have hn_le : n ≤ file.length := by
      have h1n : 1 * n ≤ (j + 1) * n + n := by
        have : (1 : Nat) ≤ j + 1 := by omega
        have := Nat.mul_le_mul_right n this
        omega
      omega
    have hsplit : file.take ((j + 1) * n) =
        file.take n ++ (file.drop n).take (j * n) := by
      have hjn : (j + 1) * n = n + j * n := by ring
      rw [hjn, List.take_add]
    have hdrop : file.drop ((j + 1) * n + n) =
        (file.drop n).drop (j * n + n) := by
      rw [List.drop_drop]
      congr 1
      ring
    rw [hsplit, hdrop]
    have hA : (file.take n ++ (file.drop n).take (j * n)) ++ bs ++
        (file.drop n).drop (j * n + n) =
        file.take n ++ ((file.drop n).take (j * n) ++ bs ++
          (file.drop n).drop (j * n + n)) := by
      simp [List.append_assoc]
    rw [hA, chunks_cons_block n hn _ _ (by simp [List.length_take]; omega),
      ih (file.drop n) bs hbs
        (by simp only [List.length_drop]; exact Nat.le_sub_of_add_le hx)]
    have hfile : chunks n file = file.take n :: chunks n (file.drop n) := by
      conv_lhs => rw [← List.take_append_drop n file]
      rw [chunks_cons_block n hn _ _ (by simp [List.length_take]; omega)]
    rw [hfile]
    rfl

/-- All bytes of a byte string are real bytes (`0..255`); Python `bytes`
values satisfy this by construction. -/
def ValidBytes (l : List Nat) : Prop := ∀ b ∈ l, b < 256

instance (l : List Nat) : Decidable (ValidBytes l) := by
  unfold ValidBytes; infer_instance

/-- Linear scan with a running index: the `while` loop shared by the
three `get_by_id` methods, returning the first record whose key equals
`k` together with its 0-based index. -/
def findFrom {ρ : Type} (key : ρ → PyStr) (k : PyStr) :
    List ρ → Nat → Option (ρ × Nat)
  | [], _ => none
  | r :: rs, i => if key r = k then some (r, i) else findFrom key k rs (i + 1)

/-- A scan over key-mismatching records finds nothing. -/
theorem findFrom_none {ρ : Type} (key : ρ → PyStr) (k : PyStr) :
    ∀ (rs : List ρ) (i : Nat), (∀ r ∈ rs, key r ≠ k) →
    findFrom key k rs i = none := by
  intro rs
  induction rs with
  | nil => intro i _; rfl
  | cons r t ih =>
    intro i h
    rw [findFrom, if_neg (h r (List.mem_cons_self r t))]
    exact ih (i + 1) (fun x hx => h x (List.mem_cons_of_mem r hx))

/-- The scan finds the first matching index. -/
theorem findFrom_first {ρ : Type} (key : ρ → PyStr) (k : PyStr) (d : ρ) :
    ∀ (rs : List ρ) (j i : Nat), j < rs.length →
    (∀ m, m < j → key (rs.getD m d) ≠ k) → key (rs.getD j d) = k →
    findFrom key k rs i = some (rs.getD j d, i + j) := by
  intro rs
  induction rs with
  | nil => intro j i h; simp at h
  | cons r t ih =>
    intro j i hj hmiss hhit
    cases j with
    | zero =>
      simp only [List.getD_cons_zero] at hhit
      rw [findFrom, if_pos hhit]
      simp
    | succ j' =>
      simp only [List.getD_cons_succ] at hhit
      have hr : key r ≠ k := by
        have := hmiss 0 (by omega)
        simpa using this
      rw [findFrom, if_neg hr,
        ih j' (i + 1) (by simpa using hj)
          (fun m hm => by simpa using hmiss (m + 1) (by omega)) hhit]
      congr 1
      congr 1
      omega

/-- Inversion of a successful scan: the returned index is in range, the
record is the one stored there, its key matches, and no earlier record
matches. -/
theorem findFrom_some {ρ : Type} (key : ρ → PyStr) (k : PyStr) (d : ρ) :
    ∀ (rs : List ρ) (i : Nat) (r : ρ) (j : Nat),
    findFrom key k rs i = some (r, j) →
    i ≤ j ∧ j - i < rs.length ∧ rs.getD (j - i) d = r ∧ key r = k ∧
      ∀ m, m < j - i → key (rs.getD m d) ≠ k := by
  intro rs
  induction rs with
  | nil => intro i r j h; exact absurd h (by rw [findFrom]; simp)
  | cons x t ih =>
    intro i r j h
    rw [findFrom] at h
    by_cases hx : key x = k
    · rw [if_pos hx] at h
      obtain ⟨rfl, rfl⟩ : x = r ∧ i = j := by
        constructor <;> [skip; skip] <;> cases h <;> rfl
      refine ⟨Nat.le_refl _, by simp, by simp, hx, by omega⟩
    · rw [if_neg hx] at h
      obtain ⟨h1, h2, h3, h4, h5⟩ := ih (i + 1) r j h
      refine ⟨by omega, ?_, ?_, h4, ?_⟩
      · simp only [List.length_cons]; omega
      · have : j - i = (j - (i + 1)) + 1 := by omega
        rw [this, List.getD_cons_succ]; exact h3
      · intro m hm
        cases m with
        | zero => simpa using hx
        | succ m' =>
          rw [List.getD_cons_succ]
          exact h5 m' (by omega)

namespace MemberStore

/-- `MemberStore.iter_all`: scan 184-byte chunks, decoding each (a short
trailing chunk is discarded by the chunker). -/
def iter_all (file : List Nat) : List Member :=
  (chunks 184 file).map unpackCore

/-- `MemberStore.get_by_id`: linear scan for the first record with the
given `member_id`. -/
def get_by_id (file : List Nat) (member_id : PyStr) :
    Option (Member × Nat) :=
  findFrom Member.member_id member_id (iter_all file) 0

/-- `MemberStore.append`: full-file duplicate check on `member_id`
(raising `ValueError` and leaving the file untouched on a duplicate),
then pack and write at end of file. -/
def append (file : List Nat) (d : Member) : Except PyErr (List Nat) :=
  if (get_by_id file d.member_id).isSome then .error .valueError
  else (pack d).map (fun bs => file ++ bs)

/-- `MemberStore.update_at`: overwrite 184 bytes in place at offset
`index * 184` (seeking past end of file zero-fills the gap first). -/
def update_at (file : List Nat) (index : Nat) (d : Member) :
    Except PyErr (List Nat) :=
  (pack d).map (fun bs =>
    file.take (index * 184) ++
    List.replicate (index * 184 - file.length) 0 ++ bs ++
    file.drop (index * 184 + 184))

end MemberStore

namespace BookStore

/-- `BookStore.iter_all`: scan 158-byte chunks, decoding each. -/
def iter_all (file : List Nat) : List Book :=
  (chunks 158 file).map unpackCore

/-- `BookStore.get_by_id`: linear scan for the first record with the
given `book_id`. -/
def get_by_id (file : List Nat) (book_id : PyStr) : Option (Book × Nat) :=
  findFrom Book.book_id book_id (iter_all file) 0

/-- `BookStore.append`: full-file duplicate check on `book_id`, then pack
and write at end of file. -/
def append (file : List Nat) (d : Book) : Except PyErr (List Nat) :=
  if (get_by_id file d.book_id).isSome then .error .valueError
  else (pack d).map (fun bs => file ++ bs)

/-- `BookStore.update_at`: overwrite 158 bytes in place at offset
`index * 158`. -/
def update_at (file : List Nat) (index : Nat) (d : Book) :
    Except PyErr (List Nat) :=
  (pack d).map (fun bs =>
    file.take (index * 158) ++
    List.replicate (index * 158 - file.length) 0 ++ bs ++
    file.drop (index * 158 + 158))

/-- Re-encode a record list in order (the write loop of `delete_hard`);
the first record that fails to pack raises.  In the Python code the
target file has already been opened with `"wb"` (truncating it) and the
records before the failing one have already been written, so an error
here leaves a partially rewritten file on disk. -/
def packAll : List Book → Except PyErr (List Nat)
  | [] => .ok []
  | r :: rs =>
    match pack r with
    | .error e => .error e
    | .ok bs =>
      match packAll rs with
      | .error e => .error e
      | .ok rest => .ok (bs ++ rest)

/-- `BookStore.delete_hard`: decode every record, keep those whose
`book_id` differs from the key, and rewrite the file from the kept
records. -/
def delete_hard (file : List Nat) (book_id : PyStr) :
    Except PyErr (List Nat) :=
  packAll ((iter_all file).filter (fun r => r.book_id ≠ book_id))

end BookStore

namespace LoanStore

/-- `LoanStore.iter_all`: scan 64-byte chunks, decoding each. -/
def iter_all (file : List Nat) : List Loan :=
  (chunks 64 file).map unpackCore

/-- `LoanStore.get_by_id`: linear scan for the first record with the
given `loan_id`. -/
def get_by_id (file : List Nat) (loan_id : PyStr) : Option (Loan × Nat) :=
  findFrom Loan.loan_id loan_id (iter_all file) 0

/-- `LoanStore.append`: no uniqueness check of any kind — pack and write
at end of file. -/
def append (file : List Nat) (d : Loan) : Except PyErr (List Nat) :=
  (pack d).map (fun bs => file ++ bs)

/-- `LoanStore.update_at`: overwrite 64 bytes in place at offset
`index * 64`. -/
def update_at (file : List Nat) (index : Nat) (d : Loan) :
    Except PyErr (List Nat) :=
  (pack d).map (fun bs =>
    file.take (index * 64) ++
    List.replicate (index * 64 - file.length) 0 ++ bs ++
    file.drop (index * 64 + 64))

end LoanStore

/-- The record written back by `loan_return` for a non-returned loan. -/
def returnUpdate (r : Loan) (now : Nat) : Loan :=
  { r with
    return_date := now
    status := if now > r.due_date then 2 else 1 }

/-- `loan_return` (lib_mgmt.py:680-698), with the current time passed in
as `now`: look up the loan; if missing or already `returned(1)`, both
files are left unchanged; otherwise set `return_date := now`, decide
`late(2)` vs `returned(1)` by comparing with `due_date`, rewrite the loan
record in place, then look up the book and increment its
`available_copies` (skipped silently when the book id is unknown).  An
`error` result models an exception escaping `loan_return`; the loan file
value inside the book-update error case has already been rewritten on
disk when the exception is raised. -/
def loan_return (lnFile bkFile : List Nat) (lid : PyStr) (now : Nat) :
    Except PyErr (List Nat × List Nat) :=
  match LoanStore.get_by_id lnFile lid with
  | none => .ok (lnFile, bkFile)
  | some (r, idx) =>
    if r.status = 1 then .ok (lnFile, bkFile)
    else
      let r' := returnUpdate r now
      match LoanStore.update_at lnFile idx r' with
      | .error e => .error e
      | .ok lnFile' =>
        match BookStore.get_by_id bkFile r.book_id with
        | none => .ok (lnFile', bkFile)
        | some (book, bidx) =>
          match BookStore.update_at bkFile bidx
              { book with available_copies := book.available_copies + 1 } with
          | .error e => .error e
          | .ok bkFile' => .ok (lnFile', bkFile')

/-- A little-endian byte list denotes a value below `256 ^ length`. -/
theorem leNat_lt (l : List Nat) (h : ∀ b ∈ l, b < 256) :
    leNat l < 256 ^ l.length := by
  induction l with
  | nil => simp [leNat]
  | cons b bs ih =>
    have hb := h b (List.mem_cons_self b bs)
    have hr := ih (fun x hx => h x (List.mem_cons_of_mem b hx))
    rw [leNat, List.length_cons, Nat.pow_succ]
    omega

/-- Bound for a `getD` with default 0 over real bytes. -/
theorem getD_lt_256 (l : List Nat) (h : ∀ b ∈ l, b < 256) (i : Nat) :
    l.getD i 0 < 256 := by
  rw [List.getD_eq_getElem?_getD]
  cases hx : l[i]? with
  | none => simp
  | some x =>
    have : x ∈ l := List.getElem?_mem hx
    simpa using h x this

/-- An in-bounds `leNat (take k ...)` over real bytes is below `256^k`. -/
theorem leNat_take_lt (l : List Nat) (h : ∀ b ∈ l, b < 256) (k : Nat) :
    leNat (l.take k) < 256 ^ k := by
  have h1 : ∀ b ∈ l.take k, b < 256 :=
    fun b hb => h b (List.mem_of_mem_take hb)
  have h2 := leNat_lt (l.take k) h1
  have h3 : (l.take k).length ≤ k := by
    simp [List.length_take]
  calc leNat (l.take k) < 256 ^ (l.take k).length := h2
    _ ≤ 256 ^ k := Nat.pow_le_pow_right (by omega) h3

/-- Every element of a chunk is an element of the chunked list. -/
theorem chunks_mem_subset {α : Type} :
    ∀ (fuel n : Nat) (l : List α) (c : List α),
    c ∈ chunksGo fuel n l → ∀ x ∈ c, x ∈ l := by
  intro fuel
  induction fuel with
  | zero => intro n l c hc; simp [chunksGo] at hc
  | succ f ih =>
    intro n l c hc x hx
    match n with
    | 0 => simp [chunksGo] at hc
    | m + 1 =>
      rw [chunksGo] at hc
      by_cases hcond : m + 1 ≤ l.length
      · rw [if_pos hcond] at hc
        rcases List.mem_cons.mp hc with h | h
        · subst h; exact List.mem_of_mem_take hx
        · exact List.mem_of_mem_drop (ih (m + 1) (l.drop (m + 1)) c h x hx)
      · rw [if_neg hcond] at hc
        simp at hc

/-- The decoded fields of a loan record read from real bytes are within
their format widths. -/
theorem loan_unpackCore_bounded (b : List Nat)
    (h : ∀ x ∈ b, x < 256) :
    (LoanStore.unpackCore b).loan_date < 18446744073709551616 ∧
    (LoanStore.unpackCore b).due_date < 18446744073709551616 ∧
    (LoanStore.unpackCore b).return_date < 18446744073709551616 := by
  have hsub : ∀ k, ∀ x ∈ b.drop k, x < 256 :=
    fun k x hx => h x (List.mem_of_mem_drop hx)
  have h1 := leNat_take_lt (b.drop 36) (hsub 36) 8
  have h2 := leNat_take_lt (b.drop 44) (hsub 44) 8
  have h3 := leNat_take_lt (b.drop 52) (hsub 52) 8
  simp only [LoanStore.unpackCore, List.drop_drop]
  norm_num at h1 h2 h3 ⊢
  exact ⟨h1, h2, h3⟩

/-- The decoded numeric fields of a book record read from real bytes are
within their format widths. -/
theorem book_unpackCore_bounded (b : List Nat)
    (h : ∀ x ∈ b, x < 256) :
    (BookStore.unpackCore b).available_copies < 65536 ∧
    (BookStore.unpackCore b).created_at < 18446744073709551616 := by
  have hsub : ∀ k, ∀ x ∈ b.drop k, x < 256 :=
    fun k x hx => h x (List.mem_of_mem_drop hx)
  have h1 := leNat_take_lt (b.drop 148) (hsub 148) 2
  have h2 := leNat_take_lt (b.drop 150) (hsub 150) 8
  simp only [BookStore.unpackCore, List.drop_drop]
  norm_num at h1 h2 ⊢
  exact ⟨h1, h2⟩

/-- Claim C3 (amended): appending a Member or Book whose id is already
present fails with `ValueError` (the duplicate check runs before the file
is opened for writing, so the file is untouched); `LoanStore.append`
performs no uniqueness check and appends whenever the record encodes —
but encoding is not unconditional: a loan whose u64 date fields do not
fit raises `struct.error` from `pack` and nothing is appended. -/
theorem C3_append_uniqueness :
    (∀ (file : List Nat) (d : Member) (p : Member × Nat),
      MemberStore.get_by_id file d.member_id = some p →
      MemberStore.append file d = .error .valueError) ∧
    (∀ (file : List Nat) (d : Book) (p : Book × Nat),
      BookStore.get_by_id file d.book_id = some p →
      BookStore.append file d = .error .valueError) ∧
    (∀ (file : List Nat) (d : Loan) (bs : List Nat),
      LoanStore.pack d = .ok bs →
      LoanStore.append file d = .ok (file ++ bs)) := by
  refine ⟨?_, ?_, ?_⟩
  · intro file d p h
    rw [MemberStore.append, if_pos (by rw [h]; rfl)]
  · intro file d p h
    rw [BookStore.append, if_pos (by rw [h]; rfl)]
  · intro file d bs h
    rw [LoanStore.append, h]
    rfl

/-- A loan whose `loan_date` does not fit in a u64. -/
def loanBigDate : Loan :=
  { loanSample with loan_date := 18446744073709551616 }

set_option maxRecDepth 40000 in
/-- Claim C3 counterexample: `LoanStore.append` does not "always append"
— on a loan whose `loan_date` is `2^64` it raises `struct.error` (for any
file; here the empty store), appending nothing. -/
theorem C3_append_uniqueness_cex :
    LoanStore.append [] loanBigDate = .error .structError := by decide

/-- One-record member store file. -/
def memberFile1 : List Nat := MemberStore.packBytes memberSample

/-- One-record book store file. -/
def bookFile1 : List Nat := BookStore.packBytes bookSample 1965

/-- One-record loan store file. -/
def loanFile1 : List Nat := LoanStore.packBytes loanSample

set_option maxRecDepth 100000 in
/-- Witness for C3: duplicate member/book appends fail with `ValueError`;
a loan append with a duplicate `loan_id` succeeds and appends. -/
theorem C3_append_uniqueness_witness :
    MemberStore.append memberFile1 memberSample = .error .valueError ∧
    BookStore.append bookFile1 bookSample = .error .valueError ∧
    LoanStore.append loanFile1 loanSample =
      .ok (loanFile1 ++ LoanStore.packBytes loanSample) :=
  ⟨C3_append_uniqueness.1 memberFile1 memberSample
      (MemberStore.unpackCore memberFile1, 0) (by decide),
   C3_append_uniqueness.2.1 bookFile1 bookSample
      (BookStore.unpackCore bookFile1, 0) (by decide),
   C3_append_uniqueness.2.2 loanFile1 loanSample _ (by decide)⟩

/-- A two-record book store file whose second record has stored year 0. -/
def bookFileWithYearZero : List Nat :=
  BookStore.packBytes bookSample 1965 ++ BookStore.packBytes bookYearZero 0

set_option maxRecDepth 100000 in
/-- Claim C5 at the failing input: a book store with two records, exactly
one of which matches the deleted key, on which `delete_hard` raises
`TypeError` (from `int(None)` while re-encoding the kept record whose
stored year is 0) instead of rewriting the store to one record.  Because
the Python code has already reopened the file with mode `"wb"`
(truncating it) before the raise, the store content is destroyed. -/
theorem C5_delete_hard_year_zero_bug :
    ((BookStore.iter_all bookFileWithYearZero).filter
        (fun r => r.book_id = bookSample.book_id)).length = 1 ∧
    BookStore.delete_hard bookFileWithYearZero bookSample.book_id =
      .error .typeError := by decide

/-- `getD` after `set` at the same (in-range) index. -/
theorem getD_set_self {α : Type} (l : List α) (i : Nat) (a d : α)
    (h : i < l.length) : (l.set i a).getD i d = a := by
  rw [List.getD_eq_getElem?_getD, List.getElem?_set_self h]
  rfl

/-- `getD` after `set` at a different index. -/
theorem getD_set_ne {α : Type} (l : List α) (i j : Nat) (a d : α)
    (h : j ≠ i) : (l.set i a).getD j d = l.getD j d := by
  rw [List.getD_eq_getElem?_getD, List.getElem?_set_ne (fun he => h he.symm),
    ← List.getD_eq_getElem?_getD]

/-- Claim C9 (amended): updating a valid existing index in place keeps
the file length (hence the record count) unchanged, replaces exactly the
`i`-th decoded record, and a subsequent `get_by_id` for the new record's
key returns the updated record (as decoded) at index `i` — provided the
record encodes (`created_at` in u64 range), its `member_id` survives the
codec (fits in 12 bytes, no NUL), and no record before index `i` already
has that id (`get_by_id` returns the first match). -/
theorem C9_update_at_preserves (file : List Nat) (i : Nat) (r : Member)
    (hidx : (i + 1) * 184 ≤ file.length)
    (hc64 : r.created_at < 18446744073709551616)
    (hid : strOk r.member_id 12)
    (hearly : ∀ j, j < i →
      ((MemberStore.iter_all file).getD j default).member_id ≠ r.member_id) :
    ∃ file',
      MemberStore.update_at file i r = .ok file' ∧
      file'.length = file.length ∧
      MemberStore.iter_all file' = (MemberStore.iter_all file).set i
        (MemberStore.unpackCore (MemberStore.packBytes r)) ∧
      MemberStore.get_by_id file' r.member_id =
        some (MemberStore.unpackCore (MemberStore.packBytes r), i) := by
  have hbs : (MemberStore.packBytes r).length = 184 :=
    MemberStore.mem_packBytes_length r
  have hpack : MemberStore.pack r = .ok (MemberStore.packBytes r) := by
    simp [MemberStore.pack, hc64]
  have hrep : List.replicate (i * 184 - file.length) (0 : Nat) = [] := by
    have h0 : i * 184 - file.length = 0 := by omega
    rw [h0]; rfl
  have hsplice := chunks_splice 184 (by omega) i file
    (MemberStore.packBytes r) hbs hidx
  refine ⟨file.take (i * 184) ++ MemberStore.packBytes r ++
      file.drop (i * 184 + 184), ?_, ?_, ?_, ?_⟩
  · rw [MemberStore.update_at, hpack]
    simp [hrep]
    rfl
  · simp only [List.length_append, List.length_take, List.length_drop, hbs]
    omega
  · show (chunks 184 _).map MemberStore.unpackCore = _
    rw [hsplice, List.map_set]
    rfl
  · have hkey : (MemberStore.unpackCore (MemberStore.packBytes r)).member_id
        = r.member_id := by
      rw [MemberStore.mem_unpackCore_packBytes r hc64]
      exact unpack_str_pack_str _ _ hid.1 hid.2
    have hlen' : (MemberStore.iter_all (file.take (i * 184) ++
        MemberStore.packBytes r ++ file.drop (i * 184 + 184))).length =
        (MemberStore.iter_all file).length := by
      show ((chunks 184 _).map _).length = ((chunks 184 _).map _).length
      rw [hsplice]
      simp
    have hlen2 : i < (MemberStore.iter_all file).length := by
      show i < ((chunks 184 file).map _).length
      rw [List.length_map, chunks_length 184 (by omega) file]
      have := (Nat.le_div_iff_mul_le (by omega : 0 < 184)).mpr hidx
      omega
    have hiter : MemberStore.iter_all (file.take (i * 184) ++
        MemberStore.packBytes r ++ file.drop (i * 184 + 184)) =
        (MemberStore.iter_all file).set i
          (MemberStore.unpackCore (MemberStore.packBytes r)) := by
      show (chunks 184 _).map MemberStore.unpackCore = _
      rw [hsplice, List.map_set]
      rfl
    rw [MemberStore.get_by_id, hiter]
    have hfirst := findFrom_first Member.member_id r.member_id default
      ((MemberStore.iter_all file).set i
        (MemberStore.unpackCore (MemberStore.packBytes r)))
      i 0 (by simpa using hlen2) ?_ ?_
    · rw [hfirst]
      rw [getD_set_self _ _ _ _ hlen2]
      simp
    · intro m hm
      rw [getD_set_ne _ _ _ _ _ (by omega)]
      exact hearly m hm
    · rw [getD_set_self _ _ _ _ hlen2]
      exact hkey

/-- A member whose id needs 13 bytes: it is truncated to 12 on encode, so
no decoded record ever equals it. -/
def memberId13 : Member :=
  { memberSample with member_id := "M000000000001".toList }

def memberA : Member :=
  { memberSample with member_id := "X1".toList, first_name := "A".toList }

def memberB : Member :=
  { memberSample with member_id := "Y1".toList, first_name := "B".toList }

def memberC : Member :=
  { memberSample with member_id := "X1".toList, first_name := "C".toList }

/-- Two-record member store: `memberA` at index 0, `memberB` at 1. -/
def memberFile2 : List Nat :=
  MemberStore.packBytes memberA ++ MemberStore.packBytes memberB

set_option maxRecDepth 200000 in
/-- Claim C9 counterexample: three updates at a valid index after which
find-by-key does not return the updated record: a 13-byte id (truncated
on encode, so the scan finds nothing), an id duplicating an earlier
record (the scan returns the index-0 record, not the updated one), and a
record whose `created_at` overflows u64 (update raises and writes
nothing). -/
theorem C9_update_at_preserves_cex :
    ((MemberStore.update_at memberFile1 0 memberId13).toOption.isSome ∧
      MemberStore.get_by_id
        ((MemberStore.update_at memberFile1 0 memberId13).toOption.getD [])
        memberId13.member_id = none) ∧
    (MemberStore.get_by_id
        ((MemberStore.update_at memberFile2 1 memberC).toOption.getD [])
        memberC.member_id ≠
      some (MemberStore.unpackCore (MemberStore.packBytes memberC), 1) ∧
     (MemberStore.get_by_id
        ((MemberStore.update_at memberFile2 1 memberC).toOption.getD [])
        memberC.member_id).map (fun p => (p.1.first_name, p.2)) =
      some ("A".toList, 0)) ∧
    (MemberStore.update_at memberFile1 0 memberBigCreated =
        .error .structError ∧
      MemberStore.get_by_id memberFile1 memberBigCreated.member_id = none)
  := by decide

def memberZ : Member := { memberSample with member_id := "Z9".toList }

set_option maxRecDepth 200000 in
/-- Witness for C9: update index 1 of the two-record store with a fresh
id; the length is preserved and the scan finds the updated record. -/
theorem C9_update_at_preserves_witness :
    ∃ file',
      MemberStore.update_at memberFile2 1 memberZ = .ok file' ∧
      file'.length = memberFile2.length ∧
      MemberStore.iter_all file' = (MemberStore.iter_all memberFile2).set 1
        (MemberStore.unpackCore (MemberStore.packBytes memberZ)) ∧
      MemberStore.get_by_id file' memberZ.member_id =
        some (MemberStore.unpackCore (MemberStore.packBytes memberZ), 1) :=
  C9_update_at_preserves memberFile2 1 memberZ (by decide) (by decide)
    (by decide)
    (fun j hj => by
      have hj0 : j = 0 := by omega
      subst hj0
      decide)

/-- Elements of chunks come from the chunked list. -/
theorem chunks_subset {α : Type} (n : Nat) (l : List α) (c : List α)
    (hc : c ∈ chunks n l) : ∀ x ∈ c, x ∈ l :=
  chunks_mem_subset l.length n l c hc

/-- A decoded record at an in-range index comes from some chunk of the
file. -/
theorem iter_getD_chunk {ρ : Type} [Inhabited ρ] (n : Nat)
    (uc : List Nat → ρ) (file : List Nat) (i : Nat)
    (hi : i < ((chunks n file).map uc).length) :
    ∃ c, c ∈ chunks n file ∧
      uc c = ((chunks n file).map uc).getD i default := by
  have hi' : i < (chunks n file).length := by simpa using hi
  refine ⟨(chunks n file)[i], List.getElem_mem hi', ?_⟩
  rw [List.getD_eq_getElem?_getD, List.getElem?_map,
    List.getElem?_eq_getElem hi']
  rfl


/-- In-range `LoanStore.update_at` on an encodable record: the 64-byte
splice succeeds and replaces exactly the `i`-th decoded record. -/
theorem loan_update_at_ok (file : List Nat) (i : Nat) (d : Loan)
    (hidx : (i + 1) * 64 ≤ file.length)
    (h1 : d.loan_date < 18446744073709551616)
    (h2 : d.due_date < 18446744073709551616)
    (h3 : d.return_date < 18446744073709551616) :
    LoanStore.update_at file i d =
      .ok (file.take (i * 64) ++ LoanStore.packBytes d ++
        file.drop (i * 64 + 64)) ∧
    LoanStore.iter_all (file.take (i * 64) ++ LoanStore.packBytes d ++
        file.drop (i * 64 + 64)) =
      (LoanStore.iter_all file).set i
        (LoanStore.unpackCore (LoanStore.packBytes d)) := by
  have hbs : (LoanStore.packBytes d).length = 64 := LoanStore.loan_packBytes_length d
  have hpack : LoanStore.pack d = .ok (LoanStore.packBytes d) := by
    simp [LoanStore.pack, h1, h2, h3]
  have hrep : List.replicate (i * 64 - file.length) (0 : Nat) = [] := by
    have h0 : i * 64 - file.length = 0 := by omega
    rw [h0]; rfl
  constructor
  · rw [LoanStore.update_at, hpack]
    simp [hrep]
    rfl
  · show (chunks 64 _).map LoanStore.unpackCore = _
    rw [chunks_splice 64 (by omega) i file (LoanStore.packBytes d) hbs hidx,
      List.map_set]
    rfl

/-- In-range `BookStore.update_at` on an encodable record: the 158-byte
splice succeeds and replaces exactly the `i`-th decoded record. -/
theorem book_update_at_ok (file : List Nat) (i : Nat) (d : Book)
    (y : Nat) (hidx : (i + 1) * 158 ≤ file.length) (hy : d.year = some y)
    (hc : d.created_at < 18446744073709551616) :
    BookStore.update_at file i d =
      .ok (file.take (i * 158) ++ BookStore.packBytes d y ++
        file.drop (i * 158 + 158)) ∧
    BookStore.iter_all (file.take (i * 158) ++ BookStore.packBytes d y ++
        file.drop (i * 158 + 158)) =
      (BookStore.iter_all file).set i
        (BookStore.unpackCore (BookStore.packBytes d y)) := by
  have hbs : (BookStore.packBytes d y).length = 158 :=
    BookStore.book_packBytes_length d y
  have hpack : BookStore.pack d = .ok (BookStore.packBytes d y) := by
    simp [BookStore.pack, hy, hc]
  have hrep : List.replicate (i * 158 - file.length) (0 : Nat) = [] := by
    have h0 : i * 158 - file.length = 0 := by omega
    rw [h0]; rfl
  constructor
  · rw [BookStore.update_at, hpack]
    simp [hrep]
    rfl
  · show (chunks 158 _).map BookStore.unpackCore = _
    rw [chunks_splice 158 (by omega) i file (BookStore.packBytes d y) hbs hidx,
      List.map_set]
    rfl

/-- A loan found in a byte-valid loan store has in-u64-range date fields
and an in-range index. -/
theorem loan_get_by_id_bounded (file : List Nat) (lid : PyStr)
    (r : Loan) (idx : Nat) (hv : ValidBytes file)
    (hfind : LoanStore.get_by_id file lid = some (r, idx)) :
    (idx + 1) * 64 ≤ file.length ∧ idx < (LoanStore.iter_all file).length ∧
    (LoanStore.iter_all file).getD idx default = r ∧ r.loan_id = lid ∧
    (∀ m, m < idx → ((LoanStore.iter_all file).getD m default).loan_id ≠ lid) ∧
    r.loan_date < 18446744073709551616 ∧
    r.due_date < 18446744073709551616 ∧
    r.return_date < 18446744073709551616 := by
  obtain ⟨-, hlt, hgetD, hkey, hmiss⟩ :=
    findFrom_some Loan.loan_id lid default (LoanStore.iter_all file) 0 r idx
      hfind
  simp only [Nat.sub_zero] at hlt hgetD hmiss
  have hlen : idx < (chunks 64 file).length := by
    simpa [LoanStore.iter_all] using hlt
  have hidx64 : (idx + 1) * 64 ≤ file.length :=
    chunks_index_bound 64 (by omega) file idx hlen
  obtain ⟨c, hcmem, hcval⟩ :=
    iter_getD_chunk 64 LoanStore.unpackCore file idx
      (by simpa [LoanStore.iter_all] using hlt)
  have hcbytes : ∀ x ∈ c, x < 256 :=
    fun x hx => hv x (chunks_subset 64 file c hcmem x hx)
  have hbound := loan_unpackCore_bounded c hcbytes
  have hrc : LoanStore.unpackCore c = r := by
    rw [hcval]; exact hgetD
  rw [hrc] at hbound
  exact ⟨hidx64, hlt, hgetD, hkey, hmiss, hbound.1, hbound.2.1, hbound.2.2⟩

/-- A book found in a byte-valid book store has in-range numeric fields
and an in-range index. -/
theorem book_get_by_id_bounded (file : List Nat) (bid : PyStr)
    (b : Book) (idx : Nat) (hv : ValidBytes file)
    (hfind : BookStore.get_by_id file bid = some (b, idx)) :
    (idx + 1) * 158 ≤ file.length ∧ idx < (BookStore.iter_all file).length ∧
    (BookStore.iter_all file).getD idx default = b ∧
    b.available_copies < 65536 ∧
    b.created_at < 18446744073709551616 := by
  obtain ⟨-, hlt, hgetD, hkey, hmiss⟩ :=
    findFrom_some Book.book_id bid default (BookStore.iter_all file) 0 b idx
      hfind
  simp only [Nat.sub_zero] at hlt hgetD hmiss
  have hlen : idx < (chunks 158 file).length := by
    simpa [BookStore.iter_all] using hlt
  have hidx158 : (idx + 1) * 158 ≤ file.length :=
    chunks_index_bound 158 (by omega) file idx hlen
  obtain ⟨c, hcmem, hcval⟩ :=
    iter_getD_chunk 158 BookStore.unpackCore file idx
      (by simpa [BookStore.iter_all] using hlt)
  have hcbytes : ∀ x ∈ c, x < 256 :=
    fun x hx => hv x (chunks_subset 158 file c hcmem x hx)
  have hbound := book_unpackCore_bounded c hcbytes
  have hrc : BookStore.unpackCore c = b := by
    rw [hcval]; exact hgetD
  rw [hrc] at hbound
  exact ⟨hidx158, hlt, hgetD, hbound.1, hbound.2⟩

/-- Claim C6 (amended): for every loan found by id in a byte-valid loan
store: if its status is `returned(1)` the operation is a no-op on both
stores; otherwise it writes back the loan with `return_date := now` and
`status := late(2)` if `now` is after `due_date`, else `returned(1)` —
because the guard tests only status `returned` and not `late`, a loan
already `late` satisfies this branch and is reprocessed.  The book's
`available_copies` is incremented by one (modulo `2^16` on disk) provided
the book id is found in the book store and the stored book re-encodes
(its decoded `year` is an integer, i.e. the stored year is nonzero; a
stored year of 0 makes the book update raise `TypeError` instead).  If
the book id is not found, the loan is still updated but the book store is
left unchanged and nothing is incremented. -/
theorem C6_loan_return_behaviour (lnFile bkFile : List Nat) (lid : PyStr)
    (now : Nat) (r : Loan) (idx : Nat)
    (hfind : LoanStore.get_by_id lnFile lid = some (r, idx))
    (hvl : ValidBytes lnFile) :
    (r.status = 1 → loan_return lnFile bkFile lid now = .ok (lnFile, bkFile)) ∧
    (r.status ≠ 1 → now < 18446744073709551616 →
      (LoanStore.unpackCore (LoanStore.packBytes (returnUpdate r now))).return_date = now ∧
      (LoanStore.unpackCore (LoanStore.packBytes (returnUpdate r now))).status =
        (if now > r.due_date then 2 else 1) ∧
      (BookStore.get_by_id bkFile r.book_id = none →
        ∃ lnFile',
          loan_return lnFile bkFile lid now = .ok (lnFile', bkFile) ∧
          LoanStore.iter_all lnFile' = (LoanStore.iter_all lnFile).set idx
            (LoanStore.unpackCore (LoanStore.packBytes (returnUpdate r now)))) ∧
      (∀ (book : Book) (bidx : Nat) (y : Nat),
        BookStore.get_by_id bkFile r.book_id = some (book, bidx) →
        book.year = some y → ValidBytes bkFile →
        ∃ lnFile' bkFile',
          loan_return lnFile bkFile lid now = .ok (lnFile', bkFile') ∧
          LoanStore.iter_all lnFile' = (LoanStore.iter_all lnFile).set idx
            (LoanStore.unpackCore (LoanStore.packBytes (returnUpdate r now))) ∧
          BookStore.iter_all bkFile' = (BookStore.iter_all bkFile).set bidx
            (BookStore.unpackCore (BookStore.packBytes
              { book with available_copies := book.available_copies + 1 } y)) ∧
          (BookStore.unpackCore (BookStore.packBytes
              { book with available_copies := book.available_copies + 1 } y)).available_copies =
            (book.available_copies + 1) % 65536)) := by
  obtain ⟨hidx64, hlt, hgetD, hkey, hmiss, hld, hdd, hrd⟩ :=
    loan_get_by_id_bounded lnFile lid r idx hvl hfind
  constructor
  · intro hs
    rw [loan_return, hfind]
    simp [hs]
  · intro hs hnow
    have hu := LoanStore.loan_unpackCore_packBytes (returnUpdate r now)
      (by simpa [returnUpdate] using hld)
      (by simpa [returnUpdate] using hdd)
      (by simpa [returnUpdate] using hnow)
    have hret : (LoanStore.unpackCore (LoanStore.packBytes
        (returnUpdate r now))).return_date = now := by
      rw [hu]; simp [returnUpdate]
    have hstat : (LoanStore.unpackCore (LoanStore.packBytes
        (returnUpdate r now))).status = (if now > r.due_date then 2 else 1) := by
      rw [hu]
      simp only [returnUpdate]
      by_cases hgt : now > r.due_date <;> simp [hgt]
    obtain ⟨hupd, hiter⟩ := loan_update_at_ok lnFile idx
      (returnUpdate r now) hidx64 (by simpa [returnUpdate] using hld)
      (by simpa [returnUpdate] using hdd) (by simpa [returnUpdate] using hnow)
    refine ⟨hret, hstat, ?_, ?_⟩
    · intro hnone
      refine ⟨_, ?_, hiter⟩
      rw [loan_return, hfind]
      simp only [if_neg hs, hupd, hnone]
    · intro book bidx y hbfind hby hvb
      obtain ⟨hbidx, hblt, hbgetD, hbavail, hbcre⟩ :=
        book_get_by_id_bounded bkFile r.book_id book bidx hvb hbfind
      obtain ⟨hbupd, hbiter⟩ := book_update_at_ok bkFile bidx
        { book with available_copies := book.available_copies + 1 } y hbidx
        (by simpa using hby) (by simpa using hbcre)
      refine ⟨_, _, ?_, hiter, hbiter, ?_⟩
      · rw [loan_return, hfind]
        simp only [if_neg hs, hupd, hbfind, hbupd]
      · rw [BookStore.book_unpackCore_packBytes _ y (by simpa using hbcre)]

/-- A borrowed loan of book `B1` (the book whose stored year is 0). -/
def loanOnB1 : Loan :=
  { loanSample with loan_id := "LNB1".toList, book_id := "B1".toList }

/-- One-record loan store holding `loanOnB1`. -/
def loanFileB1 : List Nat := LoanStore.packBytes loanOnB1

/-- One-record book store holding the stored-year-0 book. -/
def bookFileY0 : List Nat := BookStore.packBytes bookYearZero 0

/-- `bookSample` with `available_copies` at the u16 maximum. -/
def bookMaxAvail : Book := { bookSample with available_copies := 65535 }

/-- One-record book store holding `bookMaxAvail`. -/
def bookFileMax : List Nat := BookStore.packBytes bookMaxAvail 1965

set_option maxRecDepth 400000 in
/-- Claim C6 counterexample: three returns of a found, non-returned loan
on which "increments the book's available_copies by one" fails: the
book's stored year is 0 (re-encoding it raises `TypeError`, the loan file
is already rewritten and the book file is not updated); the book id is
absent from the book store (the return succeeds but the book store is
byte-for-byte unchanged); the book's `available_copies` is 65535 (the
increment wraps to 0 on disk). -/
theorem C6_loan_return_behaviour_cex :
    (loan_return loanFileB1 bookFileY0 loanOnB1.loan_id 1700000100 =
      .error .typeError) ∧
    ((loan_return loanFileB1 [] loanOnB1.loan_id 1700000100).toOption.map
        Prod.snd = some []) ∧
    ((loan_return loanFile1 bookFileMax loanSample.loan_id
        1700000100).toOption.map
        (fun p => ((BookStore.iter_all p.2).getD 0 default).available_copies) =
      some 0) := by decide

/-- The decoded image of `loanSample` (identical to it: it fits). -/
def loanSampleDec : Loan := LoanStore.unpackCore (LoanStore.packBytes loanSample)

/-- The decoded image of `bookSample` (identical to it: it fits). -/
def bookSampleDec : Book :=
  BookStore.unpackCore (BookStore.packBytes bookSample 1965)

set_option maxRecDepth 400000 in
/-- Witness for C6: returning the sample loan before its due date updates
the loan record in place (status `returned`) and increments the sample
book's availability. -/
theorem C6_loan_return_behaviour_witness :
    ∃ lnFile' bkFile',
      loan_return loanFile1 bookFile1 loanSample.loan_id 1700000100 =
        .ok (lnFile', bkFile') ∧
      LoanStore.iter_all lnFile' = (LoanStore.iter_all loanFile1).set 0
        (LoanStore.unpackCore (LoanStore.packBytes
          (returnUpdate loanSampleDec 1700000100))) ∧
      BookStore.iter_all bkFile' = (BookStore.iter_all bookFile1).set 0
        (BookStore.unpackCore (BookStore.packBytes
          { bookSampleDec with
            available_copies := bookSampleDec.available_copies + 1 } 1965)) ∧
      (BookStore.unpackCore (BookStore.packBytes
          { bookSampleDec with
            available_copies := bookSampleDec.available_copies + 1 } 1965)).available_copies =
        (bookSampleDec.available_copies + 1) % 65536 :=
  ((C6_loan_return_behaviour loanFile1 bookFile1 loanSample.loan_id
      1700000100 loanSampleDec 0 (by decide) (by decide)).2
    (by decide) (by decide)).2.2.2 bookSampleDec 0 1965
    (by decide) (by decide) (by decide)

/-! ### Display width and table layout (lib_mgmt.py:44-128)

`_disp_width` sums a per-character column width obtained from
`unicodedata` tables: 0 for combining marks, 2 for East-Asian Wide or
Fullwidth characters, 1 otherwise.  The Unicode table lookup is an
external collaborator; it is modelled as an oracle parameter
`cw : Char → Nat`.  The real classifier gives the ellipsis character
`'…'` (U+2026, East-Asian width Ambiguous, non-combining) width 1, which
is the only fact about the tables the layout guarantees rely on. -/

/-- `_disp_width`: sum of per-character display widths. -/
def dispWidth (cw : Char → Nat) (text : PyStr) : Nat :=
  text.foldl (fun w ch => w + cw ch) 0

/-- The accumulation loop of `_truncate_to_width` (`width ≥ 2` here):
take characters while the running width stays strictly below the budget,
reserving one column for the ellipsis. -/
def truncAux (cw : Char → Nat) : PyStr → Nat → Nat → PyStr
  | [], _, _ => []
  | ch :: rest, used, width =>
    let cwc := cw ch
    if used + cwc ≥ width then []
    else ch ::
      (if used + cwc ≥ width - 1 then []
       else truncAux cw rest (used + cwc) width)

/-- `_truncate_to_width`: return `text` unchanged when it fits; for
`width ≤ 1` return `"…"[:width]` (the ellipsis for `width = 1`, empty
otherwise); else accumulate a prefix and append one ellipsis. -/
def truncate_to_width (cw : Char → Nat) (text : PyStr) (width : Int) : PyStr :=
  if (dispWidth cw text : Int) ≤ width then text
  else if width ≤ 1 then (if 1 ≤ width then ['…'] else [])
  else truncAux cw text 0 width.toNat ++ ['…']

/-- `foldl` accumulation shift for `dispWidth`. -/
theorem dispWidth_foldl (cw : Char → Nat) :
    ∀ (s : PyStr) (a : Nat),
    s.foldl (fun w ch => w + cw ch) a = a + dispWidth cw s := by
  intro s
  induction s with
  | nil => intro a; simp [dispWidth]
  | cons c t ih =>
    intro a
    simp only [dispWidth, List.foldl_cons] at *
    rw [ih (a + cw c), ih (0 + cw c)]
    omega

theorem dispWidth_cons (cw : Char → Nat) (c : Char) (t : PyStr) :
    dispWidth cw (c :: t) = cw c + dispWidth cw t := by
  show (c :: t).foldl _ 0 = _
  rw [List.foldl_cons, dispWidth_foldl]
  omega

theorem dispWidth_append (cw : Char → Nat) (a b : PyStr) :
    dispWidth cw (a ++ b) = dispWidth cw a + dispWidth cw b := by
  induction a with
  | nil => simp [dispWidth]
  | cons c t ih =>
    simp only [List.cons_append, dispWidth_cons, ih]
    omega

/-- The truncation loop produces a prefix of the text whose display
width, added to the starting budget already used, stays below the
reserved-ellipsis budget. -/
theorem truncAux_spec (cw : Char → Nat) (W : Nat) :
    ∀ (s : PyStr) (used : Nat), used < W →
    (∃ q, s = truncAux cw s used W ++ q) ∧
    used + dispWidth cw (truncAux cw s used W) ≤ W - 1 := by
  intro s
  induction s with
  | nil =>
    intro used hu
    exact ⟨⟨[], rfl⟩, by simp [truncAux, dispWidth]; omega⟩
  | cons ch rest ih =>
    intro used hu
    rw [truncAux]
    by_cases hbreak : used + cw ch ≥ W
    · rw [if_pos hbreak]
      exact ⟨⟨ch :: rest, rfl⟩, by simp [dispWidth]; omega⟩
    · rw [if_neg hbreak]
      by_cases hstop : used + cw ch ≥ W - 1
      · rw [if_pos hstop]
        refine ⟨⟨rest, rfl⟩, ?_⟩
        rw [dispWidth_cons]
        simp [dispWidth]
        omega
      · rw [if_neg hstop]
        obtain ⟨⟨q, hq⟩, hw⟩ := ih (used + cw ch) (by omega)
        refine ⟨⟨q, by rw [List.cons_append, ← hq]⟩, ?_⟩
        rw [dispWidth_cons]
        omega

/-- Claim C7 (amended): `_truncate_to_width` returns `s` unchanged when
it fits the budget; when it does not fit, it returns one ellipsis for
`w = 1`, the empty string for `w ≤ 0`, and otherwise a prefix of `s` of
display width at most `w - 1` followed by one ellipsis; the display
width of the result never exceeds `w` for every non-negative budget `w`
(for negative `w` the result is the empty string, whose width 0 exceeds
`w`).  The per-character width classifier is the oracle `cw`; the only
table fact used is that the ellipsis has width 1. -/
theorem C7_truncate_to_width (cw : Char → Nat) (hell : cw '…' = 1)
    (s : PyStr) (w : Int) :
    ((dispWidth cw s : Int) ≤ w → truncate_to_width cw s w = s) ∧
    (w < (dispWidth cw s : Int) → w = 1 →
      truncate_to_width cw s w = ['…']) ∧
    (w < (dispWidth cw s : Int) → w ≤ 0 →
      truncate_to_width cw s w = []) ∧
    (w < (dispWidth cw s : Int) → 2 ≤ w →
      ∃ p q, s = p ++ q ∧ truncate_to_width cw s w = p ++ ['…'] ∧
        (dispWidth cw p : Int) ≤ w - 1) ∧
    (0 ≤ w → (dispWidth cw (truncate_to_width cw s w) : Int) ≤ w) := by
  have hellWidth : dispWidth cw ['…'] = 1 := by
    rw [dispWidth_cons, hell]
    simp [dispWidth]
  refine ⟨?_, ?_, ?_, ?_, ?_⟩
  · intro h
    rw [truncate_to_width, if_pos h]
  · intro h hw
    rw [truncate_to_width, if_neg (by omega), if_pos (by omega),
      if_pos (by omega)]
  · intro h hw
    rw [truncate_to_width, if_neg (by omega), if_pos (by omega),
      if_neg (by omega)]
  · intro h hw
    obtain ⟨⟨q, hq⟩, hwid⟩ := truncAux_spec cw w.toNat s 0 (by omega)
    refine ⟨truncAux cw s 0 w.toNat, q, hq, ?_, ?_⟩
    · rw [truncate_to_width, if_neg (by omega), if_neg (by omega)]
    · have hcast : ((w.toNat : Int)) = w := Int.toNat_of_nonneg (by omega)
      omega
  · intro h0
    by_cases hfit : (dispWidth cw s : Int) ≤ w
    · rw [truncate_to_width, if_pos hfit]
      exact hfit
    · by_cases h1 : w ≤ 1
      · rw [truncate_to_width, if_neg hfit, if_pos h1]
        by_cases h11 : (1 : Int) ≤ w
        · rw [if_pos h11, hellWidth]
          omega
        · rw [if_neg h11]
          simpa [dispWidth] using h0
      · obtain ⟨⟨q, hq⟩, hwid⟩ := truncAux_spec cw w.toNat s 0 (by omega)
        rw [truncate_to_width, if_neg hfit, if_neg h1, dispWidth_append,
          hellWidth]
        have hcast : ((w.toNat : Int)) = w := Int.toNat_of_nonneg (by omega)
        omega

/-- A width assignment agreeing with `_disp_width` on the ASCII letters
and the ellipsis used below: every such character has width 1. -/
def cwOne : Char → Nat := fun _ => 1

/-- Claim C7 counterexample: with a negative budget the text does not
fit, the result is the empty string, and its display width 0 exceeds the
budget — "the display width of the result never exceeds w" fails for
`w < 0`. -/
theorem C7_truncate_to_width_cex :
    (-1 : Int) < (dispWidth cwOne ['a', 'b'] : Int) ∧
    truncate_to_width cwOne ['a', 'b'] (-1) = [] ∧
    ¬ ((dispWidth cwOne (truncate_to_width cwOne ['a', 'b'] (-1)) : Int)
        ≤ -1) := by decide

/-- Witness for C7: truncating a six-column string to budget 4 keeps a
three-character prefix plus the ellipsis, within the budget. -/
theorem C7_truncate_to_width_witness :
    (∃ p q, ("abcdef".toList : PyStr) = p ++ q ∧
      truncate_to_width cwOne "abcdef".toList 4 = p ++ ['…'] ∧
      (dispWidth cwOne p : Int) ≤ 4 - 1) ∧
    (0 ≤ (4 : Int) →
      (dispWidth cwOne (truncate_to_width cwOne "abcdef".toList 4) : Int)
        ≤ 4) :=
  ⟨(C7_truncate_to_width cwOne rfl "abcdef".toList 4).2.2.2.1 (by decide)
      (by decide),
   fun h0 => (C7_truncate_to_width cwOne rfl "abcdef".toList 4).2.2.2.2 h0⟩

/-- Natural column widths (render_table lines 96-103): start from the
header display widths (`max` with the initial 0 is the header width) and
fold every row in, taking the maximum cell display width per column;
cells beyond a short row's length are skipped. -/
def natWidths (cw : Char → Nat) (headers : List PyStr)
    (rows : List (List PyStr)) : List Nat :=
  rows.foldl
    (fun ws r => (List.range headers.length).map
      (fun i => if i < r.length
        then max (ws.getD i 0) (dispWidth cw (r.getD i []))
        else ws.getD i 0))
    (headers.map (dispWidth cw))

/-- Stable insertion into a width-descending pair list (ties keep the
incoming element first, as Python's stable `sorted` does). -/
def insertDesc (p : Nat × Nat) : List (Nat × Nat) → List (Nat × Nat)
  | [] => [p]
  | q :: rest => if q.2 ≤ p.2 then p :: q :: rest else q :: insertDesc p rest

/-- `sorted(enumerate(widths), key=lambda x: x[1], reverse=True)`: a
stable sort by width, descending. -/
def sortPairsDesc : List (Nat × Nat) → List (Nat × Nat)
  | [] => []
  | p :: rest => insertDesc p (sortPairsDesc rest)

/-- The shrink loop (render_table lines 119-127): walk the
widest-first pair list; skip a column already at (or below) its floor;
otherwise shrink it by the amount still needed, down to its floor at
most, and stop as soon as the deficit reaches zero. -/
def shrinkGo : List Nat → List Nat → List (Nat × Nat) → Nat → List Nat
  | ws, _, [], _ => ws
  | ws, mc, (idx, _) :: rest, need =>
    let w := ws.getD idx 0
    let m := mc.getD idx 0
    if w ≤ m then shrinkGo ws mc rest need
    else
      let step := min (w - m) need
      let ws' := ws.set idx (w - step)
      if need - step = 0 then ws' else shrinkGo ws' mc rest (need - step)

/-- The width budget (render_table lines 110-111): the caller-supplied
`max_total` when truthy, else `max 60 (term_w - 2)`. -/
def render_limit (maxTotal : Option Nat) (termW : Nat) : Nat :=
  match maxTotal with
  | some m => if m = 0 then max 60 (termW - 2) else m
  | none => max 60 (termW - 2)

/-- The column-width computation of `render_table` (lines 96-128):
natural widths, then — only when the total content width exceeds the
budget — the widest-first shrink toward per-column floors
`max 6 (min 30 w)`; residual overflow is accepted. -/
def render_table_widths (cw : Char → Nat) (headers : List PyStr)
    (rows : List (List PyStr)) (maxTotal : Option Nat) (termW : Nat)
    (sep : PyStr) : List Nat :=
  let widths := natWidths cw headers rows
  let cols := headers.length
  let sepW := dispWidth cw sep
  let limit := render_limit maxTotal termW
  let total := widths.sum + sepW * (cols - 1)
  if total > limit then
    let minCol := widths.map (fun w => max 6 (min 30 w))
    let pairs := sortPairsDesc widths.enum
    shrinkGo widths minCol pairs (total - limit)
  else widths

/-- The shrink loop keeps every column between
`min (floor, original)` and its original width, whatever the visiting
order and deficit. -/
theorem shrinkGo_bounds (mc ws0 : List Nat) :
    ∀ (pairs : List (Nat × Nat)) (ws : List Nat) (need : Nat),
    (∀ i, min (mc.getD i 0) (ws0.getD i 0) ≤ ws.getD i 0 ∧
      ws.getD i 0 ≤ ws0.getD i 0) →
    ∀ i, min (mc.getD i 0) (ws0.getD i 0) ≤
        (shrinkGo ws mc pairs need).getD i 0 ∧
      (shrinkGo ws mc pairs need).getD i 0 ≤ ws0.getD i 0 := by
  intro pairs
  induction pairs with
  | nil => intro ws need hinv i; exact hinv i
  | cons p rest ih =>
    intro ws need hinv i
    obtain ⟨idx, pw⟩ := p
    rw [shrinkGo]
    by_cases hskip : ws.getD idx 0 ≤ mc.getD idx 0
    · rw [if_pos hskip]
      exact ih ws need hinv i
    · rw [if_neg hskip]
      have hinv' : ∀ j,
          min (mc.getD j 0) (ws0.getD j 0) ≤
            (ws.set idx (ws.getD idx 0 -
              min (ws.getD idx 0 - mc.getD idx 0) need)).getD j 0 ∧
          (ws.set idx (ws.getD idx 0 -
              min (ws.getD idx 0 - mc.getD idx 0) need)).getD j 0 ≤
            ws0.getD j 0 := by
        intro j
        by_cases hrange : idx < ws.length
        · by_cases hji : j = idx
          · subst hji
            rw [getD_set_self _ _ _ _ hrange]
            have h1 := (hinv j).1
            have h2 := (hinv j).2
            constructor
            · have : mc.getD j 0 ≤ ws.getD j 0 -
                  min (ws.getD j 0 - mc.getD j 0) need := by omega
              omega
            · omega
          · rw [getD_set_ne _ _ _ _ _ hji]
            exact hinv j
        · rw [List.set_eq_of_length_le (by omega)]
          exact hinv j
      by_cases hstop : need - min (ws.getD idx 0 - mc.getD idx 0) need = 0
      · rw [if_pos hstop]
        exact hinv' i
      · rw [if_neg hstop]
        exact ih _ _ hinv' i

/-- Claim C8: when the natural content width exceeds the budget, the
shrink step never reduces a column below `max 6 (min 30 naturalWidth)`
(a column already below that floor is left at its natural width — the
`min` with the natural width below), never widens a column, and always
returns (residual overflow is accepted rather than raising). -/
theorem C8_layout_floor (cw : Char → Nat) (headers : List PyStr)
    (rows : List (List PyStr)) (maxTotal : Option Nat) (termW : Nat)
    (sep : PyStr) (i : Nat)
    (hover : (natWidths cw headers rows).sum +
      dispWidth cw sep * (headers.length - 1) >
      render_limit maxTotal termW) :
    min (max 6 (min 30 ((natWidths cw headers rows).getD i 0)))
        ((natWidths cw headers rows).getD i 0) ≤
      (render_table_widths cw headers rows maxTotal termW sep).getD i 0 ∧
    (render_table_widths cw headers rows maxTotal termW sep).getD i 0 ≤
      (natWidths cw headers rows).getD i 0 := by
  have hmc : ∀ j, ((natWidths cw headers rows).map
      (fun w => max 6 (min 30 w))).getD j 0 =
      (if j < (natWidths cw headers rows).length
       then max 6 (min 30 ((natWidths cw headers rows).getD j 0)) else 0) := by
    intro j
    by_cases hj : j < (natWidths cw headers rows).length
    · rw [if_pos hj, List.getD_eq_getElem?_getD, List.getElem?_map,
        List.getElem?_eq_getElem hj, List.getD_eq_getElem?_getD,
        List.getElem?_eq_getElem hj]
      rfl
    · rw [if_neg hj, List.getD_eq_getElem?_getD, List.getElem?_map,
        List.getElem?_eq_none (by simp at hj ⊢; omega)]
      rfl
  rw [render_table_widths]
  simp only [if_pos hover]
  have hbounds := shrinkGo_bounds
    ((natWidths cw headers rows).map (fun w => max 6 (min 30 w)))
    (natWidths cw headers rows)
    (sortPairsDesc (natWidths cw headers rows).enum)
    (natWidths cw headers rows)
    ((natWidths cw headers rows).sum +
      dispWidth cw sep * (headers.length - 1) - render_limit maxTotal termW)
    (fun j => ⟨Nat.min_le_right _ _, Nat.le_refl _⟩) i
  rw [hmc i] at hbounds
  by_cases hi : i < (natWidths cw headers rows).length
  · rw [if_pos hi] at hbounds
    exact hbounds
  · rw [if_neg hi] at hbounds
    have hzero : (natWidths cw headers rows).getD i 0 = 0 := by
      rw [List.getD_eq_getElem?_getD,
        List.getElem?_eq_none (by simp at hi ⊢; omega)]
      rfl
    rw [hzero]
    constructor
    · simp
    · rw [hzero] at hbounds
      exact hbounds.2

def tableHeaders : List PyStr := ["BookID".toList, "Title".toList]

def tableRows : List (List PyStr) := [["B1".toList, List.replicate 40 'a']]

def tableSep : PyStr := " | ".toList

/-- Witness for C8: a two-column table with a 40-wide title column under
a budget of 20: the title column is floored at 30, the id column at its
natural width. -/
theorem C8_layout_floor_witness :
    min (max 6 (min 30 ((natWidths cwOne tableHeaders tableRows).getD 1 0)))
        ((natWidths cwOne tableHeaders tableRows).getD 1 0) ≤
      (render_table_widths cwOne tableHeaders tableRows (some 20) 100
        tableSep).getD 1 0 ∧
    (render_table_widths cwOne tableHeaders tableRows (some 20) 100
        tableSep).getD 1 0 ≤
      (natWidths cwOne tableHeaders tableRows).getD 1 0 :=
  C8_layout_floor cwOne tableHeaders tableRows (some 20) 100 tableSep 1
    (by decide)
